import Mathlib

/-!
Verification development for the character-dialogue RAG backend:
the similarity-search layer, the memory store with its linked
embedding records, the memory-search fallback ladder, and the
five-stage pipeline orchestrator, modelled shallowly from the code.

Modelling conventions:
- Python floats are modelled as rationals; the real-valued cosine
  similarity additionally uses `Real.sqrt` over the reals.
- External collaborators (MongoDB, the Groq chat API, the
  sentence-transformer embedder) are oracle parameters, `Except`-valued
  wherever the underlying call can raise.
- A Python function that can raise becomes an `Except String`-valued
  Lean function; a raised exception is `Except.error`.
-/

namespace HeroAgent

variable {α : Type*}

instance {ε β : Type*} [DecidableEq ε] [DecidableEq β] : DecidableEq (Except ε β) := by
  intro x y
  cases x <;> cases y
  case error.error a b =>
    exact if h : a = b then .isTrue (by rw [h]) else .isFalse (fun hc => h (Except.error.inj hc))
  case ok.ok a b =>
    exact if h : a = b then .isTrue (by rw [h]) else .isFalse (fun hc => h (Except.ok.inj hc))
  case error.ok a b => exact .isFalse (fun hc => Except.noConfusion hc)
  case ok.error a b => exact .isFalse (fun hc => Except.noConfusion hc)

/-- Value stored in an open metadata map (a Python dict): a string or a
numeric entry (floats modelled as rationals). -/
inductive MVal where
  | s (v : String)
  | q (v : ℚ)
deriving DecidableEq

/-- Metadata maps (Python dicts with string keys) as association lists;
lookup finds the first binding. -/
abbrev Meta := List (String × MVal)

/-- Python dict `d.get(key)`, returning `None` when the key is absent. -/
def metaGet (k : String) : Meta → Option MVal
  | [] => none
  | (k2, v) :: rest => if k2 = k then some v else metaGet k rest

/-- Python dict item assignment `d[key] = v`: replaces the existing
binding when present, otherwise appends a new one. -/
def metaSet (k : String) (v : MVal) : Meta → Meta
  | [] => [(k, v)]
  | (k2, v2) :: rest => if k2 = k then (k2, v) :: rest else (k2, v2) :: metaSet k v rest

/-- Sort key used by both similarity searches:
`metadata.get("similarity_score", 0)` read as a number (a non-numeric
entry would make Python raise during comparison; stored scores are
always numeric here). -/
def scoreOf (m : Meta) : ℚ :=
  match metaGet ("similarity_score") m with
  | some (.q v) => v
  | _ => 0

theorem metaGet_metaSet (k : String) (v : MVal) (m : Meta) :
    metaGet k (metaSet k v m) = some v := by
  induction m with
  | nil => simp [metaSet, metaGet]
  | cons kv rest ih =>
    obtain ⟨k2, v2⟩ := kv
    by_cases h : k2 = k <;> simp [metaSet, metaGet, h, ih]

theorem scoreOf_set (v : ℚ) (m : Meta) :
    scoreOf (metaSet ("similarity_score") (.q v) m) = v := by
  simp [scoreOf, metaGet_metaSet]

/-- Python `list.sort(key=…, reverse=True)`: a stable descending sort by
a rational-valued key (insertion sort has the same stable behavior:
an element moves in front of another only when its key is strictly
larger). -/
def sortByKeyDesc (key : α → ℚ) (l : List α) : List α :=
  List.insertionSort (fun a b => key b ≤ key a) l

theorem sortByKeyDesc_sorted (key : α → ℚ) (l : List α) :
    List.Sorted (fun a b => key b ≤ key a) (sortByKeyDesc key l) := by
  haveI : IsTotal α (fun a b => key b ≤ key a) := ⟨fun a b => le_total (key b) (key a)⟩
  haveI : IsTrans α (fun a b => key b ≤ key a) := ⟨fun _ _ _ h1 h2 => le_trans h2 h1⟩
  exact List.sorted_insertionSort _ l

theorem sortByKeyDesc_perm (key : α → ℚ) (l : List α) :
    List.Perm (sortByKeyDesc key l) l := List.perm_insertionSort _ l

theorem sortByKeyDesc_length (key : α → ℚ) (l : List α) :
    (sortByKeyDesc key l).length = l.length := (sortByKeyDesc_perm key l).length_eq

theorem sorted_take (r : α → α → Prop) (l : List α) (n : ℕ)
    (h : List.Sorted r l) : List.Sorted r (l.take n) :=
  h.sublist (List.take_sublist n l)

/-- Vector dot product: `np.dot` over equal-length vectors. -/
def dotQ : List ℚ → List ℚ → ℚ
  | x :: xs, y :: ys => x * y + dotQ xs ys
  | _, _ => 0

/-- Sum of the squares of the entries; `np.linalg.norm v` is its square
root. -/
def normSq (v : List ℚ) : ℚ := dotQ v v

theorem normSq_nonneg (v : List ℚ) : 0 ≤ normSq v := by
  induction v with
  | nil => simp [normSq, dotQ]
  | cons x xs ih =>
    have : normSq (x :: xs) = x * x + normSq xs := rfl
    rw [this]
    exact add_nonneg (mul_self_nonneg x) ih

/-- Euclidean norm `np.linalg.norm`, a real number. -/
noncomputable def normE (v : List ℚ) : ℝ := Real.sqrt ((normSq v : ℚ) : ℝ)

theorem normE_eq_zero_iff (v : List ℚ) : normE v = 0 ↔ normSq v = 0 := by
  unfold normE
  rw [Real.sqrt_eq_zero (by exact_mod_cast normSq_nonneg v)]
  exact_mod_cast Iff.rfl

/-- `EmbeddingService.cosine_similarity` (app/services/embedding.py):
`dot(v1,v2) / (norm(v1) * norm(v2))` with the division guarded — the
function returns 0.0 when either norm is zero and therefore never
divides by zero.  numpy computes in IEEE floats; the model carries the
same arithmetic out exactly. -/
noncomputable def cosine_similarity (v1 v2 : List ℚ) : ℝ :=
  if normE v1 = 0 ∨ normE v2 = 0 then 0
  else ((dotQ v1 v2 : ℚ) : ℝ) / (normE v1 * normE v2)

/-- `cosine_similarity_score` (app/services/embeddings.py) — the second,
textually identical implementation of the same guarded formula. -/
noncomputable def cosine_similarity_score (v1 v2 : List ℚ) : ℝ :=
  if normE v1 = 0 ∨ normE v2 = 0 then 0
  else ((dotQ v1 v2 : ℚ) : ℝ) / (normE v1 * normE v2)

theorem cosine_similarity_score_eq (v1 v2 : List ℚ) :
    cosine_similarity_score v1 v2 = cosine_similarity v1 v2 := rfl

theorem cosine_similarity_zero_of_normSq_zero (v1 v2 : List ℚ)
    (h : normSq v1 = 0 ∨ normSq v2 = 0) : cosine_similarity v1 v2 = 0 := by
  unfold cosine_similarity
  rw [if_pos]
  rcases h with h | h
  · exact Or.inl ((normE_eq_zero_iff v1).mpr h)
  · exact Or.inr ((normE_eq_zero_iff v2).mpr h)

theorem cosine_similarity_self (v : List ℚ) (h : normSq v ≠ 0) :
    cosine_similarity v v = 1 := by
  have hne : normE v ≠ 0 := fun hz => h ((normE_eq_zero_iff v).mp hz)
  have hnn : (0 : ℝ) ≤ ((normSq v : ℚ) : ℝ) := by exact_mod_cast normSq_nonneg v
  unfold cosine_similarity
  rw [if_neg (by push_neg; exact ⟨hne, hne⟩)]
  have hdot : dotQ v v = normSq v := rfl
  have hmul : normE v * normE v = ((normSq v : ℚ) : ℝ) := Real.mul_self_sqrt hnn
  rw [hdot, hmul]
  exact div_self (by exact_mod_cast h)

/-! ### Python string primitives used by the pipeline -/

/-- Python `str.replace(old, new)` on character lists for a nonempty
pattern `p :: ps`: replaces every non-overlapping occurrence, scanning
left to right.  The fuel argument only bounds the recursion depth; the
wrapper `replaceL` supplies enough fuel for the whole input. -/
def replaceGo (p : Char) (ps rep : List Char) : ℕ → List Char → List Char
  | 0, s => s
  | _ + 1, [] => []
  | n + 1, c :: cs =>
    if (p :: ps).isPrefixOf (c :: cs) then rep ++ replaceGo p ps rep n (cs.drop ps.length)
    else c :: replaceGo p ps rep n cs

/-- Replacement of every occurrence of the nonempty pattern `p :: ps`. -/
def replaceL (p : Char) (ps rep s : List Char) : List Char :=
  replaceGo p ps rep s.length s

/-- Dispatch on the pattern shape; an empty pattern never occurs in
this code base and is returned unchanged. -/
def replaceD : List Char → List Char → List Char → List Char
  | [], _, s => s
  | p :: ps, rep, s => replaceL p ps rep s

/-- Python `str.replace(old, new)`. -/
def pyReplace (s pat rep : String) : String :=
  ⟨replaceD pat.data rep.data s.data⟩

/-- One step of Python `str.title()`: `prev` records whether the
previous character was alphabetic; the first letter of each run of
letters is uppercased and the rest lowercased. -/
def titleL (prev : Bool) : List Char → List Char
  | [] => []
  | c :: cs =>
    if c.isAlpha then (if prev then c.toLower else c.toUpper) :: titleL true cs
    else c :: titleL false cs

/-- Python `str.title()`. -/
def pyTitle (s : String) : String := ⟨titleL false s.data⟩

/-- Python `str.startswith(pat)`. -/
def pyStartsWith (s pat : String) : Bool := pat.data.isPrefixOf s.data

/-- Substring test over character lists (any drop position works). -/
def isSubL (needle hay : List Char) : Bool :=
  (List.range (hay.length + 1)).any (fun i => needle.isPrefixOf (hay.drop i))

/-- Case-insensitive substring test modelling the `$regex` /
`$options: "i"` text search (the queries in the claims contain no regex
metacharacters, so a regex is a plain substring match). -/
def containsCI (hay needle : String) : Bool :=
  isSubL (needle.data.map Char.toLower) (hay.data.map Char.toLower)

/-- Character display name derived by `knowledge_retrieval`
(app/core/langgraph_orchestration.py, line 100):
`character_id.replace("character_", "").replace("_", " ").title()`.
Note that `str.replace` replaces every occurrence of `"character_"`,
not only the leading one. -/
def deriveCharacterName (character_id : String) : String :=
  pyTitle (pyReplace (pyReplace character_id ("character_") ("")) ("_") (" "))

/-- Stated from the claim wording, for comparison with
`deriveCharacterName`: strip the leading `"character_"` prefix, replace
underscores with spaces, title-case. -/
def claimedCharacterName (character_id : String) : String :=
  pyTitle (pyReplace (⟨character_id.data.drop (("character_" : String).length)⟩) ("_") (" "))

/-- The pattern occurs nowhere in the list: no suffix starts with it. -/
def NoOccur (pat s : List Char) : Prop :=
  ∀ t, t <:+ s → pat.isPrefixOf t = false

/-- Executable form of `NoOccur` over all drop positions. -/
def noOccurB (pat s : List Char) : Bool :=
  (List.range (s.length + 1)).all (fun i => !(pat.isPrefixOf (s.drop i)))

theorem noOccur_of_noOccurB {pat s : List Char} (h : noOccurB pat s = true) :
    NoOccur pat s := by
  intro t ht
  obtain ⟨u, hu⟩ := ht
  have hdrop : s.drop u.length = t := by
    rw [← hu]; exact List.drop_left u t
  have hle : u.length < s.length + 1 := by
    have := congrArg List.length hu
    simp only [List.length_append] at this
    omega
  have := (List.all_eq_true.mp h) u.length (List.mem_range.mpr hle)
  rw [hdrop] at this
  simpa using this

theorem isPrefixOf_append_self (l r : List Char) : l.isPrefixOf (l ++ r) = true := by
  induction l with
  | nil => simp [List.isPrefixOf]
  | cons c cs ih => simp [List.isPrefixOf, ih]

theorem replaceGo_of_noOccur (p : Char) (ps rep : List Char) :
    ∀ (n : ℕ) (s : List Char), NoOccur (p :: ps) s → replaceGo p ps rep n s = s := by
  intro n
  induction n with
  | zero => intro s _; rfl
  | succ n ih =>
    intro s h
    cases s with
    | nil => rfl
    | cons c cs =>
      rw [replaceGo, if_neg, ih]
      · intro t ht
        exact h t (ht.trans (List.suffix_cons c cs))
      · rw [h (c :: cs) List.suffix_rfl]
        simp

/-- Replacing a nonempty pattern in `pattern ++ rest`, when the pattern
occurs nowhere in `rest`, yields `replacement ++ rest`. -/
theorem replaceL_strip (p : Char) (ps rep rest : List Char)
    (h : NoOccur (p :: ps) rest) :
    replaceL p ps rep ((p :: ps) ++ rest) = rep ++ rest := by
  unfold replaceL
  have hlen : ((p :: ps) ++ rest).length = (ps ++ rest).length + 1 := by
    simp only [List.cons_append, List.length_cons]
  rw [hlen, List.cons_append, replaceGo, if_pos, List.drop_left ps rest,
    replaceGo_of_noOccur p ps rep _ rest h]
  rw [← List.cons_append]
  exact isPrefixOf_append_self (p :: ps) rest

/-! ### Knowledge service (app/services/knowledge.py) -/

/-- Knowledge chunk (schemas/knowledge.py `KnowledgeChunk`); the Mongo
`_id` is carried as `id`. -/
structure KnowledgeChunk where
  id : ℕ
  source : String
  content : String
  vector_embedding : Option (List ℚ)
  metadata : Meta
deriving DecidableEq

/-- Query schema `KnowledgeQuery` (schemas/knowledge.py). -/
structure KnowledgeQuery where
  query : String
  top_k : ℕ
  filter_metadata : Option Meta
deriving DecidableEq

/-- Exact-match metadata filter (`filter_query["metadata.k"] = v` for
every filter entry; a `None` or empty filter matches everything, which
is also Python truthiness of `query.filter_metadata`). -/
def matchesFilter (filt : Option Meta) (c : KnowledgeChunk) : Bool :=
  match filt with
  | none => true
  | some kvs => kvs.all (fun kv => metaGet kv.1 c.metadata == some kv.2)

/-- Oracles used by `KnowledgeService.retrieve_similar`:
`embedding_service.get_embedding` (total — it returns a zero vector on
any internal failure), the float-valued
`embedding_service.cosine_similarity` (the float result is modelled as
a rational-valued oracle; `cosine_similarity` above gives the exact
real-valued formula), and raise/succeed gates for the two MongoDB
calls. -/
structure KEnv where
  get_embedding : String → List ℚ
  sim : List ℚ → List ℚ → ℚ
  countDocuments : Except String ℕ
  findChunks : Except String Unit

/-- Attach the manually computed similarity score
(`chunk.metadata["similarity_score"] = similarity`) when the chunk has
a truthy (non-`None`, nonempty) embedding; other chunks keep their
metadata unchanged. -/
def attachScore (env : KEnv) (qemb : List ℚ) (c : KnowledgeChunk) : KnowledgeChunk :=
  match c.vector_embedding with
  | some v =>
    if v.isEmpty then c
    else { c with metadata := metaSet ("similarity_score") (.q (env.sim qemb v)) c.metadata }
  | none => c

/-- Chunks matching the metadata filter, in store iteration order. -/
def matchingChunks (q : KnowledgeQuery) (store : List KnowledgeChunk) : List KnowledgeChunk :=
  store.filter (matchesFilter q.filter_metadata)

/-- `KnowledgeService.retrieve_similar`: embeds the query, counts
documents (a raising count propagates out of the function), fetches at
most 100 chunks matching the filter (`to_list(length=100)`), scores
every chunk with a truthy embedding, sorts descending by
`metadata.get("similarity_score", 0)` and truncates to `top_k`.  A
raising find is caught and degraded to an empty result list. -/
def retrieve_similar (env : KEnv) (store : List KnowledgeChunk) (q : KnowledgeQuery) :
    Except String (List KnowledgeChunk) :=
  let qemb := env.get_embedding q.query
  match env.countDocuments with
  | .error e => .error e
  | .ok _ =>
    match env.findChunks with
    | .error _ => .ok []
    | .ok _ =>
      let fetched := (matchingChunks q store).take 100
      let scored := fetched.map (attachScore env qemb)
      let sorted := sortByKeyDesc (fun c => scoreOf c.metadata) scored
      .ok (sorted.take q.top_k)

/-! ### Memory service (app/memory/service.py) -/

/-- Memory document (Mongo `character_memories` collection; `_id`
carried as `id`).  Timestamps are abstract ticks.  `vector_embedding`
mirrors the optional field the Atlas rung inspects. -/
structure MemoryDoc where
  id : ℕ
  character_id : String
  content : String
  source : String
  importance : ℤ
  metadata : Meta
  created_at : ℕ
  last_accessed : ℕ
  access_count : ℕ
  vector_embedding : Option (List ℚ) := none
deriving DecidableEq

/-- Embedding record (Mongo `memory_embeddings` collection), linked to
one memory by `memory_id`. -/
structure EmbDoc where
  memory_id : ℕ
  character_id : String
  embedding : List ℚ
  created_at : ℕ
deriving DecidableEq

/-- The two memory collections plus the id generator of the store. -/
structure MemStore where
  memories : List MemoryDoc
  embeddings : List EmbDoc
  nextId : ℕ
deriving DecidableEq

/-- Oracles used by `MemoryService`: `create_embedding` (re-raises on
failure), the float cosine similarity, the Atlas `$search` aggregate
result, raise/succeed gates for each MongoDB cursor the service opens,
and the clock. -/
structure MemEnv where
  create_embedding : String → Except String (List ℚ)
  sim : List ℚ → List ℚ → ℚ
  atlas : Except String (List MemoryDoc)
  findEmbeddings : Except String Unit
  findText : Except String Unit
  findMemories : Except String Unit
  now : ℕ

/-- `MemoryService.get_memory`, read-only: find the memory by id.  The
access-stat update (`$inc access_count`, refresh `last_accessed`)
touches only fields no claim mentions and is elided. -/
def lookupMemory (store : MemStore) (mid : ℕ) : Option MemoryDoc :=
  store.memories.find? (fun m => m.id == mid)

/-- Write the recomputed similarity score into the result metadata. -/
def setSimScore (v : ℚ) (m : MemoryDoc) : MemoryDoc :=
  { m with metadata := metaSet ("similarity_score") (.q v) m.metadata }

/-- Sort key for `get_character_memories`; MongoDB sorts descending on
the chosen field. -/
def gcmKey (sort_by : String) (m : MemoryDoc) : ℚ :=
  if sort_by = "created_at" then (m.created_at : ℚ)
  else if sort_by = "last_accessed" then (m.last_accessed : ℚ)
  else (m.importance : ℚ)

/-- `MemoryService.get_character_memories`: character-scoped find with
an optional source filter, descending sort on the chosen field, limit.
The cursor itself can raise (`findMemories` gate). -/
def get_character_memories (env : MemEnv) (store : MemStore) (character_id : String)
    (limit : ℕ) (sort_by : String) (source : Option String) :
    Except String (List MemoryDoc) :=
  match env.findMemories with
  | .error e => .error e
  | .ok _ =>
    let q := store.memories.filter
      (fun m => m.character_id == character_id &&
        (match source with | none => true | some s => m.source == s))
    .ok ((sortByKeyDesc (gcmKey sort_by) q).take limit)

/-- Per-result processing in the Atlas rung of `search_memories`: the
recomputed cosine score is attached when the document carries a
`vector_embedding` field; the access-stat updates are elided as in
`lookupMemory`. -/
def processAtlas (env : MemEnv) (qemb : List ℚ) (m : MemoryDoc) : MemoryDoc :=
  match m.vector_embedding with
  | some v => setSimScore (env.sim qemb v) m
  | none => m

/-- Regex-rung predicate: case-insensitive match of the query against
`content`, `metadata.topic` and `metadata.category`. -/
def textMatches (query : String) (m : MemoryDoc) : Bool :=
  containsCI m.content query ||
  (match metaGet ("topic") m.metadata with | some (.s v) => containsCI v query | _ => false) ||
  (match metaGet ("category") m.metadata with | some (.s v) => containsCI v query | _ => false)

/-- The memories of the character matching the case-insensitive regex,
capped at `limit` (`collection.find(...).limit(limit)` of the text
rung). -/
def textResults (store : MemStore) (character_id query : String) (limit : ℕ) :
    List MemoryDoc :=
  (store.memories.filter
    (fun m => m.character_id == character_id && textMatches query m)).take limit

/-- The text path of `search_memories` (the body of the outer `except`):
a case-insensitive regex find (a raising cursor or an empty result set
falls back to the character's highest-importance memories).  The final
`get_character_memories` call is not guarded, so its exception
propagates to the caller; the duplicated fallback calls on lines 300
and 304 behave identically against a deterministic store, so one call
models both. -/
def textFallback (env : MemEnv) (store : MemStore) (character_id query : String)
    (limit : ℕ) : Except String (List MemoryDoc) :=
  match env.findText with
  | .error _ => get_character_memories env store character_id limit ("importance") none
  | .ok _ =>
    if (textResults store character_id query limit).isEmpty then
      get_character_memories env store character_id limit ("importance") none
    else .ok (textResults store character_id query limit)

/-- The value computed by the manual-scan rung of `search_memories`:
score every embedding record of the character, sort descending, take
`limit`, and fetch each memory through `get_memory` (a missing memory
is skipped), attaching the score to the result metadata. -/
def manualResult (env : MemEnv) (store : MemStore) (character_id : String)
    (limit : ℕ) (qemb : List ℚ) : List MemoryDoc :=
  ((sortByKeyDesc (fun p => p.2)
      ((store.embeddings.filter (fun e => e.character_id == character_id)).map
        (fun e => (e.memory_id, env.sim qemb e.embedding)))).take limit).filterMap
    (fun p => (lookupMemory store p.1).map (setSimScore p.2))

/-- Manual-scan rung: a raising embeddings cursor falls to the text
path; otherwise the manually scored result is returned as-is, even when
empty (no further fallback on this path). -/
def manualOrText (env : MemEnv) (store : MemStore) (character_id query : String)
    (limit : ℕ) (qemb : List ℚ) : Except String (List MemoryDoc) :=
  match env.findEmbeddings with
  | .error _ => textFallback env store character_id query limit
  | .ok _ => .ok (manualResult env store character_id limit qemb)

/-- `MemoryService.search_memories`: the fallback ladder.  Vector path:
embed the query (`create_embedding` re-raises → text path), try the
Atlas `$search` aggregate (exception or no results → manual scan over
the embedding records of the character).  The Atlas results are capped by
`to_list(length=limit)` and returned with the recomputed cosine scores
attached, in Atlas order (the code does not re-sort them). -/
def search_memories (env : MemEnv) (store : MemStore) (character_id : String)
    (query : String) (limit : ℕ) : Except String (List MemoryDoc) :=
  match env.create_embedding query with
  | .error _ => textFallback env store character_id query limit
  | .ok qemb =>
    match env.atlas with
    | .error _ => manualOrText env store character_id query limit qemb
    | .ok raw =>
      if (raw.take limit).isEmpty then manualOrText env store character_id query limit qemb
      else .ok ((raw.take limit).map (processAtlas env qemb))

/-- Replace the first element satisfying `p` by its image under `f`
(`update_one` with a `$set`). -/
def updateFirst (p : α → Bool) (f : α → α) : List α → List α
  | [] => []
  | x :: xs => if p x then f x :: xs else x :: updateFirst p f xs

/-- Remove the first element satisfying `p` (`delete_one`). -/
def removeFirst (p : α → Bool) : List α → List α
  | [] => []
  | x :: xs => if p x then xs else x :: removeFirst p xs

/-- The store after the initial `insert_one` of `create_memory`: the
new memory document carries the freshly generated id. -/
def insertedMemStore (env : MemEnv) (store : MemStore)
    (character_id content source : String) (importance : ℤ) (metadata : Meta) : MemStore :=
  { store with
    memories := store.memories ++
      [{ id := store.nextId, character_id := character_id, content := content,
         source := source, importance := importance, metadata := metadata,
         created_at := env.now, last_accessed := env.now, access_count := 0 }],
    nextId := store.nextId + 1 }

/-- `MemoryService.create_memory`: insert the memory document first,
then generate the embedding (`create_embedding` re-raises on failure,
leaving the already-inserted memory document behind with no embedding
record), then insert the embedding record.  Returns the new id. -/
def create_memory (env : MemEnv) (store : MemStore) (character_id content source : String)
    (importance : ℤ) (metadata : Meta) : MemStore × Except String ℕ :=
  match env.create_embedding content with
  | .error e => (insertedMemStore env store character_id content source importance metadata,
      .error e)
  | .ok emb =>
    ({ insertedMemStore env store character_id content source importance metadata with
        embeddings := store.embeddings ++
          [{ memory_id := store.nextId, character_id := character_id, embedding := emb,
             created_at := env.now }] },
     .ok store.nextId)

/-- Field updates accepted by `update_memory` after the restricted-field
filter (`_id`, `character_id`, `created_at` are dropped before the
`$set`). -/
structure MemUpdates where
  content : Option String
  importance : Option ℤ
  metadata : Option Meta
deriving DecidableEq

/-- Apply the `$set` of the safe updates to one memory document. -/
def applyUpdates (u : MemUpdates) (m : MemoryDoc) : MemoryDoc :=
  let m1 := match u.content with | some c => { m with content := c } | none => m
  let m2 := match u.importance with | some i => { m1 with importance := i } | none => m1
  match u.metadata with | some md => { m2 with metadata := md } | none => m2

/-- The memory collection after the `$set` of `update_memory`
(`update_one` touches the first matching document only). -/
def updatedMemories (store : MemStore) (memory_id : ℕ) (u : MemUpdates) : List MemoryDoc :=
  updateFirst (fun m => m.id == memory_id) (applyUpdates u) store.memories

/-- `MemoryService.update_memory`: `$set` the safe updates on the first
matching memory; when the update changes `content` and the memory is
then found, regenerate the embedding (a raising `create_embedding`
propagates, leaving the embedding record stale but still present and
unique) and `$set` it on the existing embedding record (`update_one`
never inserts a new record).  The returned flag is whether a memory
document matched (the matched/modified distinction of `modified_count`
is irrelevant to every claim). -/
def update_memory (env : MemEnv) (store : MemStore) (memory_id : ℕ) (u : MemUpdates) :
    MemStore × Except String Bool :=
  match u.content with
  | none => ({ store with memories := updatedMemories store memory_id u },
      .ok (store.memories.any (fun m => m.id == memory_id)))
  | some c =>
    match lookupMemory { store with memories := updatedMemories store memory_id u }
        memory_id with
    | none => ({ store with memories := updatedMemories store memory_id u },
        .ok (store.memories.any (fun m => m.id == memory_id)))
    | some _ =>
      match env.create_embedding c with
      | .error e => ({ store with memories := updatedMemories store memory_id u },
          .error e)
      | .ok emb =>
        ({ store with
            memories := updatedMemories store memory_id u,
            embeddings := updateFirst (fun x => x.memory_id == memory_id)
              (fun x => { x with embedding := emb }) store.embeddings },
         .ok (store.memories.any (fun m => m.id == memory_id)))

/-- `MemoryService.delete_memory`: `delete_one` the memory document;
when one was deleted, `delete_one` its embedding record.  Returns
whether a memory was deleted. -/
def delete_memory (store : MemStore) (memory_id : ℕ) : MemStore × Bool :=
  if store.memories.any (fun m => m.id == memory_id) then
    ({ store with
        memories := removeFirst (fun m => m.id == memory_id) store.memories,
        embeddings := removeFirst (fun e => e.memory_id == memory_id) store.embeddings },
     true)
  else (store, false)

/-- Store well-formedness: memory ids are pairwise distinct and all ids
in either collection are below the id generator. -/
def FreshIds (s : MemStore) : Prop :=
  (s.memories.map (fun m => m.id)).Nodup ∧
  (∀ m ∈ s.memories, m.id < s.nextId) ∧
  (∀ e ∈ s.embeddings, e.memory_id < s.nextId)

/-- The linkage invariant of the spec: every live memory has exactly one
embedding record keyed by its id, and no embedding record is orphaned. -/
def Linked (s : MemStore) : Prop :=
  (∀ m ∈ s.memories, s.embeddings.countP (fun e => e.memory_id == m.id) = 1) ∧
  (∀ e ∈ s.embeddings, ∃ m ∈ s.memories, m.id = e.memory_id)

/-- Full store invariant. -/
def Inv (s : MemStore) : Prop := FreshIds s ∧ Linked s

instance (s : MemStore) : Decidable (FreshIds s) := by
  unfold FreshIds; infer_instance

instance (s : MemStore) : Decidable (Linked s) := by
  unfold Linked; infer_instance

instance (s : MemStore) : Decidable (Inv s) := by
  unfold Inv; infer_instance

/-! ### Pipeline orchestrator (app/core/langgraph_orchestration.py) -/

/-- Python truthiness of an optional string (`None` and `""` are
falsy). -/
def truthyOptStr : Option String → Bool
  | none => false
  | some s => !(s == "")

/-- Character document in the `characters` collection; every field is
read through a `.get` default. -/
structure CharDoc where
  name : Option String
  description : Option String
  personality : Option String
  knowledge_base : Option String
deriving DecidableEq

/-- Character profile carried in the pipeline state. -/
structure CharInfo where
  name : String
  description : String
  personality : String
  knowledge_base : String
deriving DecidableEq

/-- Conversation message (role and content). -/
structure Message where
  role : String
  content : String
deriving DecidableEq

/-- `GraphState`: the single record threaded through the five stages.
The initially-empty dicts `character_info` and `updated_memory` are
`none`. -/
structure GraphState where
  user_input : String
  character_id : String
  conversation_id : Option String
  prompt_version_id : Option String
  context : Meta
  knowledge_context : List KnowledgeChunk
  character_memories : List MemoryDoc
  character_info : Option CharInfo
  conversation_history : List Message
  assembled_context : String
  response : String
  updated_memory : Option MemoryDoc
  completed : Bool
  error : Option String
deriving DecidableEq

/-- Oracles used by the orchestration graph: the `characters` lookup,
the knowledge similarity search, the conversation-history lookup, the
two memory-retrieval calls, the Groq chat completion (prompt text →
reply text; temperature 0.2 and the 300-token bound are fixed arguments
of that call), the memory write (content → new id), and the follow-up
memory read.  Each call can raise. -/
structure PipeEnv where
  findCharacter : Except String (Option CharDoc)
  retrieveKnowledge : KnowledgeQuery → Except String (List KnowledgeChunk)
  findConversation : Except String (Option (List Message))
  searchMemories : Except String (List MemoryDoc)
  importantMemories : Except String (List MemoryDoc)
  llm : String → Except String String
  createMemory : String → Except String ℕ
  getMemory : ℕ → Option MemoryDoc

/-- Fallback character profile used when the lookup misses or a stage
has to degrade (the degraded dict lacks the `knowledge_base` key, which
no later stage reads; it is the empty string here). -/
def fallbackInfo (character_id : String) : CharInfo :=
  { name := character_id, description := "A fictional character",
    personality := "Friendly and helpful", knowledge_base := "" }

/-- Profile extracted from a found character document. -/
def infoOfDoc (character_id : String) (d : CharDoc) : CharInfo :=
  { name := d.name.getD character_id, description := d.description.getD (""),
    personality := d.personality.getD (""), knowledge_base := d.knowledge_base.getD ("") }

/-- Query text built by `knowledge_retrieval`. -/
def knowledgeQueryText (s : GraphState) (info : CharInfo) : String :=
  s.user_input ++ " Context: Character is " ++ info.name ++ "."

/-- Metadata filter chosen by `knowledge_retrieval`: ids of the form
`character_*` go through `deriveCharacterName`; any other id filters by
the profile display name. -/
def knowledgeFilter (s : GraphState) (info : CharInfo) : Meta :=
  if pyStartsWith s.character_id ("character_") then
    [("character", .s (deriveCharacterName s.character_id))]
  else [("character", .s info.name)]

/-- The `KnowledgeQuery` issued by the knowledge-retrieval stage, with
`top_k` fixed at 5. -/
def builtKnowledgeQuery (s : GraphState) (info : CharInfo) : KnowledgeQuery :=
  { query := knowledgeQueryText s info, top_k := 5,
    filter_metadata := some (knowledgeFilter s info) }

/-- `knowledge_retrieval` node: character lookup, knowledge similarity
search with the derived filter, optional conversation-history fetch
(whose own failure is only printed).  Any exception degrades the stage
to an empty knowledge list, the placeholder profile and an empty
history, with the reason recorded in the shared error field; the stage
itself never raises. -/
def knowledge_retrieval (env : PipeEnv) (s : GraphState) : GraphState :=
  let degraded := fun (e : String) =>
    { s with
      knowledge_context := [],
      character_info := some (fallbackInfo s.character_id),
      conversation_history := [],
      error := some ("Knowledge retrieval error: " ++ e) }
  match env.findCharacter with
  | .error e => degraded e
  | .ok docOpt =>
    let info := match docOpt with
      | some d => infoOfDoc s.character_id d
      | none => fallbackInfo s.character_id
    match env.retrieveKnowledge (builtKnowledgeQuery s info) with
    | .error e => degraded e
    | .ok chunks =>
      let history :=
        if truthyOptStr s.conversation_id then
          match env.findConversation with
          | .error _ => []
          | .ok none => []
          | .ok (some msgs) => msgs
        else []
      { s with
        knowledge_context := chunks,
        character_info := some info,
        conversation_history := history }

/-- `memory_retrieval` node: similarity search (limit 3), falling back
to the highest-importance memories when the search yields nothing; any
exception degrades to an empty memory list plus a recorded error. -/
def memory_retrieval (env : PipeEnv) (s : GraphState) : GraphState :=
  match env.searchMemories with
  | .error e =>
    { s with
      character_memories := [],
      error := some ("Memory retrieval error: " ++ e) }
  | .ok mems =>
    if mems.isEmpty then
      match env.importantMemories with
      | .error e =>
        { s with
          character_memories := [],
          error := some ("Memory retrieval error: " ++ e) }
      | .ok mems2 => { s with character_memories := mems2 }
    else { s with character_memories := mems }

/-- Python text rendering of a metadata value (the interpreter float
formatting is abstracted to the rational printer). -/
def mvalText : MVal → String
  | .s v => v
  | .q v => toString v

/-- Rendering of one knowledge chunk inside `context_assembly`. -/
def chunkBlock (i : ℕ) (c : KnowledgeChunk) : String :=
  "CHUNK " ++ toString (i + 1) ++ ": " ++ c.content ++ "\nSource: " ++
    (match metaGet ("source") c.metadata with
     | some v => mvalText v
     | none => "Unknown source") ++
  "\nRelevance Score: " ++
    (match metaGet ("similarity_score") c.metadata with
     | some v => mvalText v
     | none => "N/A") ++ "\n\n"

/-- The "no knowledge available" sentinel block emitted when the
knowledge list is empty. -/
def noKnowledgeSentinel : String :=
  "NO KNOWLEDGE CHUNKS AVAILABLE. Inform the user you don\x27t have specific information about their query in your knowledge base."

/-- The knowledge block of the assembled context. -/
def knowledgeText (chunks : List KnowledgeChunk) : String :=
  if chunks.isEmpty then noKnowledgeSentinel
  else "RELEVANT KNOWLEDGE CHUNKS (USE ONLY THIS INFORMATION):\n\n" ++
    String.join (chunks.enum.map (fun p => chunkBlock p.1 p.2))

/-- The memories block of the assembled context. -/
def memoriesText (mems : List MemoryDoc) : String :=
  if mems.isEmpty then ""
  else "Character memories:\n" ++
    String.join (mems.map (fun m => "- " ++ m.content ++ "\n"))

/-- The character block of the assembled context. -/
def characterText (info : CharInfo) : String :=
  "Character: " ++ info.name ++ "\n" ++
  "Description: " ++ info.description ++ "\n" ++
  "Personality: " ++ info.personality ++ "\n"

/-- Python `str.capitalize()`. -/
def pyCapitalize (s : String) : String :=
  match s.data with
  | [] => ⟨[]⟩
  | c :: cs => ⟨c.toUpper :: cs.map Char.toLower⟩

/-- The conversation-history block of the assembled context. -/
def historyText (h : List Message) : String :=
  if h.isEmpty then ""
  else "Previous conversation:\n" ++
    String.join (h.map (fun m => pyCapitalize m.role ++ ": " ++ m.content ++ "\n"))

/-- Everything of the assembled f-string before the knowledge block. -/
def assembledPre (info : CharInfo) : String :=
  "\nCHARACTER INFORMATION:\n" ++ characterText info ++ "\n\nKNOWLEDGE CONTEXT:\n"

/-- Everything of the assembled f-string after the knowledge block. -/
def assembledPost (s : GraphState) : String :=
  "\n\n" ++ memoriesText s.character_memories ++ "\n\n" ++
    historyText s.conversation_history ++ "\n\nUSER INPUT:\n" ++ s.user_input ++ "\n"

/-- `context_assembly` node: a pure rendering of the pipeline state into
one newline-delimited text block (the ensure-fields preamble is the
identity on this typed state except for the missing-profile default).
The except branch of the Python code guards a total rendering and is
unreachable; the stage introduces no error and never aborts the
pipeline. -/
def context_assembly (s : GraphState) : GraphState :=
  let info := match s.character_info with
    | some i => i
    | none => fallbackInfo s.character_id
  { s with
    character_info := some info,
    assembled_context :=
      assembledPre info ++ knowledgeText s.knowledge_context ++ assembledPost s }

/-- The fixed apology produced when the Groq call raises. -/
def apologyText : String := "I\x27m sorry, I\x27m having trouble responding right now."

/-- Python `str(...)` of the conversation-history list as interpolated
into the prompt template by `.format` (the exact interpreter rendering
of a list of dicts is irrelevant to every claim; a deterministic
rendering is used). -/
def historyRepr (h : List Message) : String :=
  "[" ++ String.intercalate (", ")
    (h.map (fun m => "(" ++ m.role ++ ", " ++ m.content ++ ")")) ++ "]"

/-- The formatted prompt `prompt_template.format(...)` of
`dialogue_generation`: the hardcoded template with every placeholder
substituted (`assembled_context` and `user_input` are always present on
the state, so their `.get` defaults are dead). -/
def formattedPrompt (s : GraphState) (info : CharInfo) : String :=
  "You are " ++ info.name ++ ", " ++ info.description ++
  ".\nRespond in character with the personality: " ++ info.personality ++
  ".\n\nEXTREMELY IMPORTANT INSTRUCTIONS:\n1. You MUST ONLY use the knowledge provided below to answer the user\x27s question.\n2. If the knowledge doesn\x27t contain information to answer the question, say \"I don\x27t have specific information about that in my knowledge base.\"\n3. DO NOT use your pre-trained knowledge to answer questions about the character or their universe.\n4. ONLY respond based on the knowledge context provided.\n5. DO NOT MAKE UP ANY INFORMATION that is not explicitly provided in the knowledge context.\n6. If you\x27re unsure about something, say you don\x27t have that information rather than guessing.\n\nKNOWLEDGE CONTEXT:\n" ++
  s.assembled_context ++ "\n\n" ++ historyRepr s.conversation_history ++
  "\nUser: " ++ s.user_input ++ "\n" ++ info.name ++ ":"

/-- `dialogue_generation` node: fill the hardcoded template and call the
chat API.  A raising provider call is caught at the stage boundary: the
response becomes the fixed apology and the error is recorded; the stage
never raises. -/
def dialogue_generation (env : PipeEnv) (s : GraphState) : GraphState :=
  let info := match s.character_info with
    | some i => i
    | none => fallbackInfo s.character_id
  let s1 := { s with character_info := some info }
  match env.llm (formattedPrompt s1 info) with
  | .ok reply => { s1 with response := reply }
  | .error e =>
    { s1 with
      error := some ("Dialogue generation error: " ++ e),
      response := apologyText }

/-- Content of the memory synthesized from the completed exchange. -/
def memoryContent (s : GraphState) : String :=
  "User asked: \x27" ++ s.user_input ++ "\x27. I responded: \x27" ++ s.response ++ "\x27"

/-- `memory_integration` node: skipped — while still marking the
pipeline complete — when an error was recorded earlier or when no
response text was produced; otherwise it writes the synthesized memory
(source `conversation`, importance 5) through the memory service and
stores the re-read document.  The boolean reports whether a memory
write was issued; a failing write records an error and still completes. -/
def memory_integration (env : PipeEnv) (s : GraphState) : GraphState × Bool :=
  if truthyOptStr s.error then
    ({ s with completed := true, updated_memory := none }, false)
  else if s.response == "" then
    ({ s with
        error := some ("No response to store in memory"),
        completed := true,
        updated_memory := none }, false)
  else
    match env.createMemory (memoryContent s) with
    | .ok mid =>
      ({ s with updated_memory := env.getMemory mid, completed := true }, true)
    | .error e =>
      ({ s with
          error := some ("Memory integration error: " ++ e),
          updated_memory := none,
          completed := true }, false)

/-- Inputs of `generate_dialogue_response`. -/
structure DialogueRequest where
  user_input : String
  character_id : String
  conversation_id : Option String
  prompt_version_id : Option String
  context : Meta
deriving DecidableEq

/-- The initial `GraphState` built by `generate_dialogue_response`. -/
def initialState (r : DialogueRequest) : GraphState :=
  { user_input := r.user_input, character_id := r.character_id,
    conversation_id := r.conversation_id, prompt_version_id := r.prompt_version_id,
    context := r.context, knowledge_context := [], character_memories := [],
    character_info := none, conversation_history := [], assembled_context := "",
    response := "", updated_memory := none, completed := false, error := none }

/-- The compiled dialogue graph: the five nodes in their wired order
`knowledge_retrieval → memory_retrieval → context_assembly →
dialogue_generation → memory_integration → END`.  The boolean reports
whether the memory-integration stage issued a write. -/
def runGraph (env : PipeEnv) (s : GraphState) : GraphState × Bool :=
  memory_integration env
    (dialogue_generation env
      (context_assembly (memory_retrieval env (knowledge_retrieval env s))))

/-- Response payload assembled by `generate_dialogue_response`. -/
structure ResponseData where
  response : String
  conversation_id : Option String
  knowledge_used : List ℕ
  memories_used : List ℕ
  updated_memory : Option MemoryDoc
  error : Option String
deriving DecidableEq

/-- `generate_dialogue_response`: run the graph on a fresh state and
extract the payload.  A recorded error (recorded errors are never the
empty string) routes to the degraded payload, whose message
interpolates the raw error text after the apology. -/
def generate_dialogue_response (env : PipeEnv) (r : DialogueRequest) : ResponseData :=
  let res := (runGraph env (initialState r)).1
  match res.error with
  | some e =>
    { response := apologyText ++ " Error: " ++ e,
      conversation_id := res.conversation_id, knowledge_used := [],
      memories_used := [], updated_memory := none, error := some e }
  | none =>
    { response := res.response, conversation_id := res.conversation_id,
      knowledge_used := res.knowledge_context.map (fun c => c.id),
      memories_used := res.character_memories.map (fun m => m.id),
      updated_memory := res.updated_memory, error := none }

/-! ### Helper lemmas about nonempty strings and stage behavior -/

theorem string_ne_empty_of_data (s : String) (h : s.data ≠ []) : s ≠ "" := by
  intro hc
  rw [hc] at h
  exact h rfl

theorem append_data_ne_nil (a b : String) (h : a.data ≠ []) : (a ++ b).data ≠ [] := by
  rw [String.data_append]
  intro hc
  exact h (List.append_eq_nil.mp hc).1

theorem truthy_some_append (a b : String) (h : a.data ≠ []) :
    truthyOptStr (some (a ++ b)) = true := by
  have hne : (a ++ b) ≠ "" := string_ne_empty_of_data _ (append_data_ne_nil a b h)
  simp [truthyOptStr, hne]

theorem memory_integration_skip (env : PipeEnv) (s : GraphState)
    (h : truthyOptStr s.error = true) :
    memory_integration env s = ({ s with completed := true, updated_memory := none }, false) := by
  unfold memory_integration
  rw [if_pos h]

theorem memory_integration_completes (env : PipeEnv) (s : GraphState) :
    ((memory_integration env s).1.completed = true) ∧
    ((memory_integration env s).1.response ≠ "" ∨ (memory_integration env s).1.error ≠ none) := by
  unfold memory_integration
  by_cases h1 : truthyOptStr s.error = true
  · rw [if_pos h1]
    refine ⟨rfl, Or.inr ?_⟩
    cases he : s.error with
    | none => rw [he] at h1; simp [truthyOptStr] at h1
    | some e => simp
  · rw [if_neg h1]
    by_cases h2 : (s.response == "") = true
    · rw [if_pos h2]
      exact ⟨rfl, Or.inr (by simp)⟩
    · rw [if_neg h2]
      have hr : s.response ≠ "" := by simpa using h2
      cases hc : env.createMemory (memoryContent s) with
      | ok mid => exact ⟨rfl, Or.inl hr⟩
      | error e => exact ⟨rfl, Or.inl hr⟩

theorem dialogue_generation_error (env : PipeEnv) (s : GraphState) (e : String)
    (h : ∀ p, env.llm p = .error e) :
    (dialogue_generation env s).response = apologyText ∧
    (dialogue_generation env s).error = some ("Dialogue generation error: " ++ e) := by
  unfold dialogue_generation
  simp [h]

/-- C1: every pipeline run — whatever the oracles do, i.e. however many
stages fail internally — ends after the five stages with
`completed = true` and a terminal state carrying a populated response
or a populated error. -/
theorem pipeline_completes_with_response_or_error (env : PipeEnv) (r : DialogueRequest) :
    ((runGraph env (initialState r)).1.completed = true) ∧
    ((runGraph env (initialState r)).1.response ≠ "" ∨
      (runGraph env (initialState r)).1.error ≠ none) := by
  unfold runGraph
  exact memory_integration_completes env _

/-- C5: when the generation provider call throws, the dialogue stage
does not raise — the run still ends with the fixed apology as response,
the error recorded, `completed = true`, and the memory-integration
stage skipping the write (the boolean write flag is `false`). -/
theorem llm_failure_apology_and_skip (env : PipeEnv) (r : DialogueRequest) (e : String)
    (h : ∀ p, env.llm p = .error e) :
    ((runGraph env (initialState r)).1.response = apologyText) ∧
    ((runGraph env (initialState r)).1.error = some ("Dialogue generation error: " ++ e)) ∧
    ((runGraph env (initialState r)).1.completed = true) ∧
    ((runGraph env (initialState r)).2 = false) := by
  unfold runGraph
  set s3 := context_assembly (memory_retrieval env (knowledge_retrieval env (initialState r)))
  obtain ⟨hresp, herr⟩ := dialogue_generation_error env s3 e h
  set s4 := dialogue_generation env s3
  have htru : truthyOptStr s4.error = true := by
    rw [herr]
    exact truthy_some_append ("Dialogue generation error: ") e (by decide)
  rw [memory_integration_skip env s4 htru]
  exact ⟨hresp, herr, rfl, rfl⟩

/-- Benign oracle set except for a failing generation provider. -/
def envC5 : PipeEnv :=
  { findCharacter := .ok none, retrieveKnowledge := fun _ => .ok [],
    findConversation := .ok none, searchMemories := .ok [],
    importantMemories := .ok [], llm := fun _ => .error "llm down",
    createMemory := fun _ => .ok 0, getMemory := fun _ => none }

/-- A concrete dialogue request. -/
def reqA : DialogueRequest :=
  { user_input := "hi", character_id := "character_thor", conversation_id := none,
    prompt_version_id := none, context := [] }

theorem llm_failure_apology_and_skip_witness :
    ((runGraph envC5 (initialState reqA)).1.response = apologyText) ∧
    ((runGraph envC5 (initialState reqA)).1.error =
      some ("Dialogue generation error: " ++ "llm down")) ∧
    ((runGraph envC5 (initialState reqA)).1.completed = true) ∧
    ((runGraph envC5 (initialState reqA)).2 = false) :=
  llm_failure_apology_and_skip envC5 reqA ("llm down") (fun _ => rfl)

/-- C6: whenever the knowledge list is empty — in particular when
knowledge retrieval failed entirely — context assembly yields a
non-empty assembled-context string containing the
"no knowledge available" sentinel, and the stage neither aborts nor
records any error (the error field is passed through unchanged). -/
theorem context_assembly_sentinel_on_empty_knowledge (s : GraphState)
    (h : s.knowledge_context = []) :
    (∃ a b : List Char, ((context_assembly s).assembled_context).data =
      a ++ (noKnowledgeSentinel.data ++ b)) ∧
    ((context_assembly s).assembled_context ≠ "") ∧
    ((context_assembly s).error = s.error) := by
  have hctx : (context_assembly s).assembled_context =
      assembledPre (match s.character_info with
        | some i => i
        | none => fallbackInfo s.character_id) ++
        knowledgeText s.knowledge_context ++ assembledPost s := rfl
  have key : ∀ info : CharInfo,
      (assembledPre info ++ knowledgeText s.knowledge_context ++ assembledPost s).data =
        (assembledPre info).data ++ (noKnowledgeSentinel.data ++ (assembledPost s).data) := by
    intro info
    rw [h]
    rw [show knowledgeText [] = noKnowledgeSentinel from rfl]
    rw [String.data_append, String.data_append, List.append_assoc]
  refine ⟨⟨(assembledPre _).data, (assembledPost s).data, by rw [hctx]; exact key _⟩, ?_, rfl⟩
  intro hc
  rw [hctx] at hc
  have hdata : (assembledPre (match s.character_info with
      | some i => i
      | none => fallbackInfo s.character_id) ++
      knowledgeText s.knowledge_context ++ assembledPost s).data = [] := by
    rw [hc]
  rw [key _] at hdata
  rcases List.append_eq_nil.mp hdata with ⟨_, h2⟩
  rcases List.append_eq_nil.mp h2 with ⟨h3, _⟩
  exact absurd h3 (by decide)

theorem context_assembly_sentinel_witness :
    (∃ a b : List Char,
      ((context_assembly (initialState reqA)).assembled_context).data =
        a ++ (noKnowledgeSentinel.data ++ b)) ∧
    ((context_assembly (initialState reqA)).assembled_context ≠ "") ∧
    ((context_assembly (initialState reqA)).error = (initialState reqA).error) :=
  context_assembly_sentinel_on_empty_knowledge (initialState reqA) rfl

/-- Benign oracle set except for a failing memory search, so the run
ends with a recorded error while the provider reply succeeds. -/
def envC7 : PipeEnv :=
  { findCharacter := .ok none, retrieveKnowledge := fun _ => .ok [],
    findConversation := .ok none, searchMemories := .error "boom",
    importantMemories := .ok [], llm := fun _ => .ok "Hello there",
    createMemory := fun _ => .ok 0, getMemory := fun _ => none }

/-- C7 counterexample: a run that ends with a recorded error returns a
message that is not the fixed apologetic sentence — the raw error text
("boom") is interpolated into the user-visible message, alongside the
separate error field. -/
theorem error_text_leaks_into_response :
    ((generate_dialogue_response envC7 reqA).response ≠ apologyText) ∧
    (isSubL (("boom").data) ((generate_dialogue_response envC7 reqA).response).data = true) ∧
    ((generate_dialogue_response envC7 reqA).error =
      some ("Memory retrieval error: " ++ "boom")) := by
  refine ⟨?_, ?_, ?_⟩ <;> decide

/-- C7 amended: on a run with recorded error `e`, the caller receives a
well-formed payload whose message is the apology with the raw error
text appended (`"… Error: " ++ e`), the error also carried separately,
and empty knowledge/memory id lists. -/
theorem error_payload_shape (env : PipeEnv) (r : DialogueRequest) (e : String)
    (h : (runGraph env (initialState r)).1.error = some e) :
    ((generate_dialogue_response env r).response = apologyText ++ " Error: " ++ e) ∧
    ((generate_dialogue_response env r).error = some e) ∧
    ((generate_dialogue_response env r).knowledge_used = []) ∧
    ((generate_dialogue_response env r).memories_used = []) ∧
    ((generate_dialogue_response env r).updated_memory = none) := by
  unfold generate_dialogue_response
  simp [h]

theorem error_payload_shape_witness :
    ((generate_dialogue_response envC7 reqA).response =
      apologyText ++ " Error: " ++ ("Memory retrieval error: " ++ "boom")) ∧
    ((generate_dialogue_response envC7 reqA).error =
      some ("Memory retrieval error: " ++ "boom")) ∧
    ((generate_dialogue_response envC7 reqA).knowledge_used = []) ∧
    ((generate_dialogue_response envC7 reqA).memories_used = []) ∧
    ((generate_dialogue_response envC7 reqA).updated_memory = none) :=
  error_payload_shape envC7 reqA ("Memory retrieval error: " ++ "boom") (by decide)

/-! ### Claim C9: the derived character-name filter -/

theorem pyReplace_strip (pat rest rep : String) (p : Char) (ps : List Char)
    (hpat : pat.data = p :: ps) (h : NoOccur (p :: ps) rest.data) :
    pyReplace (pat ++ rest) pat rep = rep ++ rest := by
  show (⟨replaceD pat.data rep.data (pat ++ rest).data⟩ : String) = rep ++ rest
  rw [String.data_append, hpat]
  show (⟨replaceL p ps rep.data ((p :: ps) ++ rest.data)⟩ : String) = rep ++ rest
  rw [replaceL_strip p ps rep.data rest.data h, ← String.data_append]

/-- A concrete request whose character id contains the pattern
`character_` twice. -/
def reqB : DialogueRequest :=
  { user_input := "hi", character_id := "character_character_iron",
    conversation_id := none, prompt_version_id := none, context := [] }

/-- C9 counterexample: for the id `character_character_iron` — which
begins with the prefix `character_` — the stage filter is derived by
replacing every occurrence of the pattern, not by stripping the prefix:
the code produces "Iron" where the claimed strip-prefix derivation
produces "Character Iron". -/
theorem derive_name_not_prefix_strip :
    (pyStartsWith ("character_character_iron") ("character_") = true) ∧
    (deriveCharacterName ("character_character_iron") = "Iron") ∧
    (claimedCharacterName ("character_character_iron") = "Character Iron") ∧
    (knowledgeFilter (initialState reqB) (fallbackInfo ("character_character_iron")) =
      [("character", .s ("Iron"))]) := by
  refine ⟨?_, ?_, ?_, ?_⟩ <;> decide

/-- C9 amended: ids beginning with `character_` are filtered by
`deriveCharacterName` (replace every occurrence of `character_`,
underscores to spaces, title-case) — which coincides with the claimed
strip-prefix derivation whenever the pattern occurs nowhere else in the
id (e.g. `character_iron_man` ↦ `Iron Man`); other ids are filtered by
the profile display name; `top_k` is fixed at 5. -/
theorem knowledge_query_shape :
    (∀ (s : GraphState) (info : CharInfo),
      pyStartsWith s.character_id ("character_") = true →
      builtKnowledgeQuery s info =
        { query := knowledgeQueryText s info, top_k := 5,
          filter_metadata :=
            some [("character", .s (deriveCharacterName s.character_id))] }) ∧
    (∀ (s : GraphState) (info : CharInfo),
      pyStartsWith s.character_id ("character_") = false →
      builtKnowledgeQuery s info =
        { query := knowledgeQueryText s info, top_k := 5,
          filter_metadata := some [("character", .s info.name)] }) ∧
    (∀ rest : String, noOccurB (("character_" : String).data) rest.data = true →
      deriveCharacterName ("character_" ++ rest) =
        claimedCharacterName ("character_" ++ rest)) ∧
    (deriveCharacterName ("character_iron_man") = "Iron Man") := by
  refine ⟨?_, ?_, ?_, by decide⟩
  · intro s info h
    simp [builtKnowledgeQuery, knowledgeFilter, h]
  · intro s info h
    simp [builtKnowledgeQuery, knowledgeFilter, h]
  · intro rest h
    have hpat : (("character_" : String)).data =
        'c' :: ['h', 'a', 'r', 'a', 'c', 't', 'e', 'r', '_'] := rfl
    have hno : NoOccur ('c' :: ['h', 'a', 'r', 'a', 'c', 't', 'e', 'r', '_']) rest.data := by
      have h2 := @noOccur_of_noOccurB ((("character_" : String)).data) rest.data h
      rw [hpat] at h2
      exact h2
    unfold deriveCharacterName claimedCharacterName
    rw [pyReplace_strip ("character_") rest ("") 'c'
      ['h', 'a', 'r', 'a', 'c', 't', 'e', 'r', '_'] hpat hno]
    have hdrop : (("character_" ++ rest : String)).data.drop
        ((("character_" : String)).length) = rest.data := by
      rw [String.data_append]
      have hlen : (("character_" : String)).length = (("character_" : String)).data.length := rfl
      rw [hlen, List.drop_left]
    rw [hdrop]
    have hempty : (("" : String) ++ rest) = rest := by
      apply congrArg String.mk
      exact List.nil_append _
    rw [hempty]

theorem knowledge_query_shape_witness :
    (builtKnowledgeQuery (initialState reqB) (fallbackInfo ("character_character_iron")) =
      { query := knowledgeQueryText (initialState reqB)
          (fallbackInfo ("character_character_iron")),
        top_k := 5,
        filter_metadata :=
          some [("character",
            .s (deriveCharacterName (initialState reqB).character_id))] }) ∧
    (deriveCharacterName ("character_" ++ "iron_man") =
      claimedCharacterName ("character_" ++ "iron_man")) ∧
    (∀ info : CharInfo,
      builtKnowledgeQuery { initialState reqA with character_id := "thor" } info =
        { query := knowledgeQueryText { initialState reqA with character_id := "thor" } info,
          top_k := 5, filter_metadata := some [("character", .s info.name)] }) :=
  ⟨knowledge_query_shape.1 (initialState reqB) (fallbackInfo ("character_character_iron"))
      (by decide),
   knowledge_query_shape.2.2.1 ("iron_man") (by decide),
   fun info => knowledge_query_shape.2.1 _ info (by decide)⟩

/-- C8: for equal-length vectors both cosine-similarity implementations
are total (never raise) and return 0.0 whenever either vector has zero
norm (the division is guarded), and a vector of nonzero norm has
similarity exactly 1 with itself (the model computes the float formula
exactly, so the floating-point tolerance is 0). -/
theorem cosine_similarity_guard_and_self (v1 v2 v : List ℚ)
    (hlen : v1.length = v2.length) :
    ((normSq v1 = 0 ∨ normSq v2 = 0) →
      cosine_similarity v1 v2 = 0 ∧ cosine_similarity_score v1 v2 = 0) ∧
    (normSq v ≠ 0 →
      cosine_similarity v v = 1 ∧ cosine_similarity_score v v = 1) := by
  constructor
  · intro h
    refine ⟨cosine_similarity_zero_of_normSq_zero v1 v2 h, ?_⟩
    rw [cosine_similarity_score_eq]
    exact cosine_similarity_zero_of_normSq_zero v1 v2 h
  · intro h
    refine ⟨cosine_similarity_self v h, ?_⟩
    rw [cosine_similarity_score_eq]
    exact cosine_similarity_self v h

theorem cosine_similarity_guard_and_self_witness :
    (cosine_similarity [(0 : ℚ), 0] [(1 : ℚ), 2] = 0 ∧
      cosine_similarity_score [(0 : ℚ), 0] [(1 : ℚ), 2] = 0) ∧
    (cosine_similarity [(3 : ℚ), 4] [(3 : ℚ), 4] = 1 ∧
      cosine_similarity_score [(3 : ℚ), 4] [(3 : ℚ), 4] = 1) :=
  ⟨(cosine_similarity_guard_and_self [(0 : ℚ), 0] [(1 : ℚ), 2] [(3 : ℚ), 4] rfl).1
      (Or.inl (by norm_num [normSq, dotQ])),
   (cosine_similarity_guard_and_self [(0 : ℚ), 0] [(1 : ℚ), 2] [(3 : ℚ), 4] rfl).2
      (by norm_num [normSq, dotQ])⟩

/-! ### Claims C2 and C10: sorting, truncation, and the 100-doc cap -/

theorem pairwise_filterMap {β : Type*} (R : α → α → Prop) (R2 : β → β → Prop)
    (f : α → Option β)
    (hf : ∀ a b x y, R a b → f a = some x → f b = some y → R2 x y) :
    ∀ l : List α, l.Pairwise R → (l.filterMap f).Pairwise R2 := by
  intro l
  induction l with
  | nil => intro _; simp
  | cons a l ih =>
    intro h
    cases h with
    | cons ha hl =>
      rw [List.filterMap_cons]
      cases hfa : f a with
      | none => exact ih hl
      | some x =>
        refine List.Pairwise.cons ?_ (ih hl)
        intro y hy
        obtain ⟨b, hb, hfb⟩ := List.mem_filterMap.mp hy
        exact hf a b x y (ha b hb) hfa hfb

/-- Characterization of a successful `retrieve_similar`: the result is
the descending sort of the scored first-100 matching chunks, truncated
to `top_k`. -/
theorem retrieve_similar_ok (env : KEnv) (store : List KnowledgeChunk) (q : KnowledgeQuery)
    (l : List KnowledgeChunk) (hok : retrieve_similar env store q = .ok l)
    (hfind : env.findChunks = .ok ()) :
    l = (sortByKeyDesc (fun c => scoreOf c.metadata)
          (((matchingChunks q store).take 100).map
            (attachScore env (env.get_embedding q.query)))).take q.top_k := by
  unfold retrieve_similar at hok
  cases hcount : env.countDocuments with
  | error e => rw [hcount] at hok; cases hok
  | ok n =>
    rw [hcount, hfind] at hok
    exact (Except.ok.inj hok).symm

/-- When the query embeds successfully and the Atlas rung yields no
results (empty or raising), the manual-scan rung decides the result. -/
theorem search_memories_manual (env : MemEnv) (store : MemStore) (cid query : String)
    (limit : ℕ) (qemb : List ℚ)
    (he : env.create_embedding query = .ok qemb)
    (hatlas : env.atlas = .ok [] ∨ ∃ err, env.atlas = .error err)
    (hef : env.findEmbeddings = .ok ()) :
    search_memories env store cid query limit =
      .ok (manualResult env store cid limit qemb) := by
  unfold search_memories
  rw [he]
  have hmt : manualOrText env store cid query limit qemb =
      .ok (manualResult env store cid limit qemb) := by
    unfold manualOrText
    rw [hef]
  rcases hatlas with ha | ⟨err, ha⟩
  · rw [ha]
    simp [hmt]
  · rw [ha]
    exact hmt
theorem scoreOf_setSimScore (v : ℚ) (m : MemoryDoc) :
    scoreOf (setSimScore v m).metadata = v := scoreOf_set v m.metadata

theorem manualResult_sorted (env : MemEnv) (store : MemStore) (cid : String)
    (limit : ℕ) (qemb : List ℚ) :
    List.Sorted (fun a b : MemoryDoc => scoreOf b.metadata ≤ scoreOf a.metadata)
      (manualResult env store cid limit qemb) := by
  unfold manualResult
  apply pairwise_filterMap (fun p q : ℕ × ℚ => q.2 ≤ p.2)
  · intro a b x y hR hfa hfb
    obtain ⟨ma, _, hxa⟩ := Option.map_eq_some'.mp hfa
    obtain ⟨mb, _, hxb⟩ := Option.map_eq_some'.mp hfb
    rw [← hxa, ← hxb, scoreOf_setSimScore, scoreOf_setSimScore]
    exact hR
  · exact sorted_take _ _ _ (sortByKeyDesc_sorted _ _)

theorem manualResult_length (env : MemEnv) (store : MemStore) (cid : String)
    (limit : ℕ) (qemb : List ℚ) :
    (manualResult env store cid limit qemb).length ≤ limit := by
  unfold manualResult
  exact le_trans (List.length_filterMap_le _ _) (List.length_take_le _ _)

theorem get_character_memories_length (env : MemEnv) (store : MemStore) (cid : String)
    (limit : ℕ) (sort_by : String) (source : Option String) (l : List MemoryDoc)
    (h : get_character_memories env store cid limit sort_by source = .ok l) :
    l.length ≤ limit := by
  unfold get_character_memories at h
  cases hf : env.findMemories with
  | error e => rw [hf] at h; cases h
  | ok u =>
    rw [hf] at h
    rw [← Except.ok.inj h]
    exact List.length_take_le _ _

/-- Length bound for the text path. -/
theorem textFallback_length (env : MemEnv) (store : MemStore) (cid query : String)
    (limit : ℕ) (l : List MemoryDoc)
    (h : textFallback env store cid query limit = .ok l) :
    l.length ≤ limit := by
  unfold textFallback at h
  cases hft : env.findText with
  | error e =>
    rw [hft] at h
    exact get_character_memories_length env store cid limit ("importance") none l h
  | ok u =>
    rw [hft] at h
    by_cases hres : (textResults store cid query limit).isEmpty = true
    · rw [if_pos hres] at h
      exact get_character_memories_length env store cid limit ("importance") none l h
    · rw [if_neg hres] at h
      rw [← Except.ok.inj h]
      exact List.length_take_le _ _

/-- Every successful `search_memories` result respects the limit, on
every rung of the fallback ladder. -/
theorem search_memories_length (env : MemEnv) (store : MemStore) (cid query : String)
    (limit : ℕ) (l : List MemoryDoc)
    (h : search_memories env store cid query limit = .ok l) :
    l.length ≤ limit := by
  have hmt : ∀ qemb l2, manualOrText env store cid query limit qemb = .ok l2 →
      l2.length ≤ limit := by
    intro qemb l2 h2
    unfold manualOrText at h2
    cases hef : env.findEmbeddings with
    | error e =>
      rw [hef] at h2
      exact textFallback_length env store cid query limit l2 h2
    | ok u =>
      rw [hef] at h2
      rw [← Except.ok.inj h2]
      exact le_trans (List.length_filterMap_le _ _) (List.length_take_le _ _)
  unfold search_memories at h
  cases hemb : env.create_embedding query with
  | error e =>
    rw [hemb] at h
    exact textFallback_length env store cid query limit l h
  | ok qemb =>
    rw [hemb] at h
    cases ha : env.atlas with
    | error e =>
      rw [ha] at h
      exact hmt qemb l h
    | ok raw =>
      simp only [ha] at h
      by_cases hre : (raw.take limit).isEmpty = true
      · rw [if_pos hre] at h
        exact hmt qemb l h
      · rw [if_neg hre] at h
        rw [← Except.ok.inj h]
        rw [List.length_map]
        exact List.length_take_le _ _
theorem filterMap_length_of_all_some {β : Type*} (f : α → Option β) :
    ∀ l : List α, (∀ x ∈ l, (f x).isSome = true) → (l.filterMap f).length = l.length := by
  intro l
  induction l with
  | nil => intro _; rfl
  | cons x xs ih =>
    intro h
    cases hf : f x with
    | none =>
      exfalso
      have hx := h x (List.mem_cons_self x xs)
      rw [hf] at hx
      simp at hx
    | some b =>
      rw [List.filterMap_cons_some hf, List.length_cons, List.length_cons,
        ih (fun y hy => h y (List.mem_cons_of_mem x hy))]

/-- On a store satisfying the linkage invariant every scored embedding
record resolves to a live memory, so the manual rung returns exactly
`min limit (number of embedding records of the character)` results. -/
theorem manualResult_length_exact (env : MemEnv) (store : MemStore) (cid : String)
    (limit : ℕ) (qemb : List ℚ) (hInv : Inv store) :
    (manualResult env store cid limit qemb).length =
      min limit ((store.embeddings.filter (fun e => e.character_id == cid)).length) := by
  unfold manualResult
  rw [filterMap_length_of_all_some _ _ ?_]
  · rw [List.length_take, sortByKeyDesc_length, List.length_map]
  · intro p hp
    have hp2 : p ∈ sortByKeyDesc (fun p => p.2)
        ((store.embeddings.filter (fun e => e.character_id == cid)).map
          (fun e => (e.memory_id, env.sim qemb e.embedding))) :=
      (List.take_sublist _ _).mem hp
    have hp3 : p ∈ (store.embeddings.filter (fun e => e.character_id == cid)).map
        (fun e => (e.memory_id, env.sim qemb e.embedding)) :=
      (sortByKeyDesc_perm _ _).mem_iff.mp hp2
    obtain ⟨e, he, hpe⟩ := List.mem_map.mp hp3
    have he2 : e ∈ store.embeddings := (List.mem_filter.mp he).1
    obtain ⟨m, hm, hmid⟩ := hInv.2.2 e he2
    rw [← hpe]
    show ((lookupMemory store e.memory_id).map
      (setSimScore (env.sim qemb e.embedding))).isSome = true
    cases hlk : lookupMemory store e.memory_id with
    | some m2 => rfl
    | none =>
      exfalso
      unfold lookupMemory at hlk
      exact List.find?_eq_none.mp hlk m hm (by simp [hmid])

/-- Concrete memory documents carrying `vector_embedding` fields, in
ascending similarity order. -/
def memP : MemoryDoc :=
  { id := 10, character_id := "c", content := "p", source := "conversation",
    importance := 5, metadata := [], created_at := 0, last_accessed := 0,
    access_count := 0, vector_embedding := some [2] }

def memQ : MemoryDoc :=
  { id := 11, character_id := "c", content := "r", source := "conversation",
    importance := 5, metadata := [], created_at := 0, last_accessed := 0,
    access_count := 0, vector_embedding := some [9] }

/-- The empty memory store. -/
def storeE : MemStore := { memories := [], embeddings := [], nextId := 0 }

/-- Oracle set whose Atlas `$search` aggregate returns two documents in
ascending order of their recomputed similarity scores. -/
def envAtlas : MemEnv :=
  { create_embedding := fun _ => .ok [1], sim := fun _ v => v.headD 0,
    atlas := .ok [memP, memQ], findEmbeddings := .ok (), findText := .ok (),
    findMemories := .ok (), now := 0 }

/-- C2 counterexample: the Atlas rung of `search_memories` returns the
native index results in their incoming order with recomputed similarity
scores attached but not re-sorted — here the returned list carries
scores 2 then 9, so it is not sorted in descending order of similarity
score. -/
theorem search_memories_atlas_results_not_resorted :
    (search_memories envAtlas storeE ("c") ("q") 3 =
      .ok [setSimScore 2 memP, setSimScore 9 memQ]) ∧
    ¬ List.Sorted (fun a b : MemoryDoc => scoreOf b.metadata ≤ scoreOf a.metadata)
      [setSimScore 2 memP, setSimScore 9 memQ] := by
  refine ⟨?_, ?_⟩ <;> decide

/-- C2 amended: (1) `retrieve_similar` always returns the descending
sort of its scored candidate set truncated to exactly `top_k` (fewer
only when fewer candidates were fetched — the candidate set is the
matching chunks capped at 100, cf. C10); (2) the manual-scan rung of
`search_memories` returns a list sorted descending by the attached
scores, at most `limit` long, and — on a store satisfying the linkage
invariant — exactly `min limit (number of embedding records of the
character)` long; (3) every rung of `search_memories` respects `limit`.
The Atlas rung, however, returns the native index results in their
incoming order with recomputed scores attached but not re-sorted (see
the counterexample), and the text/importance fallbacks carry no
similarity ordering, so the sortedness part holds for the two manual
scoring paths the claim cites, not for every `search_memories` result. -/
theorem similarity_results_sorted_and_truncated :
    (∀ (env : KEnv) (store : List KnowledgeChunk) (q : KnowledgeQuery)
        (l : List KnowledgeChunk),
      retrieve_similar env store q = .ok l → env.findChunks = .ok () →
      List.Sorted (fun a b : KnowledgeChunk =>
        scoreOf b.metadata ≤ scoreOf a.metadata) l ∧
      l.length = min q.top_k (min 100 (matchingChunks q store).length)) ∧
    (∀ (env : MemEnv) (store : MemStore) (cid query : String) (limit : ℕ)
        (qemb : List ℚ),
      env.create_embedding query = .ok qemb →
      (env.atlas = .ok [] ∨ ∃ err, env.atlas = .error err) →
      env.findEmbeddings = .ok () →
      ∃ mems, search_memories env store cid query limit = .ok mems ∧
        List.Sorted (fun a b : MemoryDoc =>
          scoreOf b.metadata ≤ scoreOf a.metadata) mems ∧
        mems.length ≤ limit ∧
        (Inv store → mems.length =
          min limit ((store.embeddings.filter (fun e => e.character_id == cid)).length))) ∧
    (∀ (env : MemEnv) (store : MemStore) (cid query : String) (limit : ℕ)
        (l : List MemoryDoc),
      search_memories env store cid query limit = .ok l → l.length ≤ limit) := by
  refine ⟨?_, ?_, ?_⟩
  · intro env store q l hok hfind
    rw [retrieve_similar_ok env store q l hok hfind]
    constructor
    · exact sorted_take _ _ _ (sortByKeyDesc_sorted _ _)
    · rw [List.length_take, sortByKeyDesc_length, List.length_map, List.length_take]
  · intro env store cid query limit qemb he hatlas hef
    exact ⟨manualResult env store cid limit qemb,
      search_memories_manual env store cid query limit qemb he hatlas hef,
      manualResult_sorted env store cid limit qemb,
      manualResult_length env store cid limit qemb,
      fun hInv => manualResult_length_exact env store cid limit qemb hInv⟩
  · exact fun env store cid query limit l h =>
      search_memories_length env store cid query limit l h

theorem attachScore_id (env : KEnv) (qemb : List ℚ) (c : KnowledgeChunk) :
    (attachScore env qemb c).id = c.id := by
  unfold attachScore
  cases hv : c.vector_embedding with
  | none => rfl
  | some v =>
    simp only []
    by_cases h : v.isEmpty = true <;> simp [h]

/-- C10: every chunk returned by `retrieve_similar` arises from the
first 100 chunks matching the filter (`to_list(length=100)`): each
result element is the score-attached image of one of those chunks, and
— when the matching chunks carry distinct ids — no chunk beyond the
first 100 is ever returned, regardless of its similarity. -/
theorem retrieve_similar_scores_first_100_only :
    (∀ (env : KEnv) (store : List KnowledgeChunk) (q : KnowledgeQuery)
        (l : List KnowledgeChunk),
      retrieve_similar env store q = .ok l → env.findChunks = .ok () →
      ∀ c ∈ l, ∃ d ∈ (matchingChunks q store).take 100,
        c = attachScore env (env.get_embedding q.query) d) ∧
    (∀ (env : KEnv) (store : List KnowledgeChunk) (q : KnowledgeQuery)
        (l : List KnowledgeChunk),
      retrieve_similar env store q = .ok l → env.findChunks = .ok () →
      ((matchingChunks q store).map (fun c => c.id)).Nodup →
      ∀ d ∈ (matchingChunks q store).drop 100, ∀ c ∈ l, c.id ≠ d.id) := by
  have hmem : ∀ (env : KEnv) (store : List KnowledgeChunk) (q : KnowledgeQuery)
      (l : List KnowledgeChunk),
      retrieve_similar env store q = .ok l → env.findChunks = .ok () →
      ∀ c ∈ l, ∃ d ∈ (matchingChunks q store).take 100,
        c = attachScore env (env.get_embedding q.query) d := by
    intro env store q l hok hfind c hc
    rw [retrieve_similar_ok env store q l hok hfind] at hc
    have hc2 : c ∈ sortByKeyDesc (fun c => scoreOf c.metadata)
        (((matchingChunks q store).take 100).map
          (attachScore env (env.get_embedding q.query))) :=
      (List.take_sublist _ _).mem hc
    have hc3 : c ∈ ((matchingChunks q store).take 100).map
        (attachScore env (env.get_embedding q.query)) :=
      (sortByKeyDesc_perm _ _).mem_iff.mp hc2
    obtain ⟨d, hd, hdc⟩ := List.mem_map.mp hc3
    exact ⟨d, hd, hdc.symm⟩
  refine ⟨hmem, ?_⟩
  intro env store q l hok hfind hnodup d hd c hc
  obtain ⟨d2, hd2, hcd2⟩ := hmem env store q l hok hfind c hc
  intro hid
  have hid2 : d2.id = d.id := by
    rw [hcd2, attachScore_id] at hid
    exact hid
  have hsplit : (matchingChunks q store).map (fun c => c.id) =
      ((matchingChunks q store).take 100).map (fun c => c.id) ++
      ((matchingChunks q store).drop 100).map (fun c => c.id) := by
    rw [← List.map_append, List.take_append_drop]
  rw [hsplit] at hnodup
  have hdisj := (List.nodup_append.mp hnodup).2.2
  exact hdisj (List.mem_map.mpr ⟨d2, hd2, rfl⟩) (by rw [hid2]; exact List.mem_map.mpr ⟨d, hd, rfl⟩)

/-- A concrete knowledge query (limit 2, no filter). -/
def qK : KnowledgeQuery := { query := "q", top_k := 2, filter_metadata := none }

/-- Concrete knowledge chunks with one-dimensional embeddings. -/
def chunkA : KnowledgeChunk :=
  { id := 1, source := "s1", content := "c1", vector_embedding := some [3], metadata := [] }

def chunkB : KnowledgeChunk :=
  { id := 2, source := "s2", content := "c2", vector_embedding := some [9], metadata := [] }

def chunkC : KnowledgeChunk :=
  { id := 3, source := "s3", content := "c3", vector_embedding := some [5], metadata := [] }

def storeK : List KnowledgeChunk := [chunkA, chunkB, chunkC]

/-- Oracle set for the knowledge store: the similarity of the
query with a one-dimensional candidate is its single coordinate. -/
def envK : KEnv :=
  { get_embedding := fun _ => [1], sim := fun _ v => v.headD 0,
    countDocuments := .ok 3, findChunks := .ok () }

def chunkB2 : KnowledgeChunk :=
  { id := 2, source := "s2", content := "c2", vector_embedding := some [9],
    metadata := [("similarity_score", .q 9)] }

def chunkC2 : KnowledgeChunk :=
  { id := 3, source := "s3", content := "c3", vector_embedding := some [5],
    metadata := [("similarity_score", .q 5)] }

/-- The concrete result of `retrieve_similar envK storeK qK`. -/
def lK : List KnowledgeChunk := [chunkB2, chunkC2]

def memX : MemoryDoc :=
  { id := 0, character_id := "c", content := "m0", source := "conversation",
    importance := 5, metadata := [], created_at := 0, last_accessed := 0, access_count := 0 }

def memY : MemoryDoc :=
  { id := 1, character_id := "c", content := "m1", source := "conversation",
    importance := 5, metadata := [], created_at := 0, last_accessed := 0, access_count := 0 }

/-- A concrete memory store respecting the linkage invariant. -/
def storeM : MemStore :=
  { memories := [memX, memY],
    embeddings := [{ memory_id := 0, character_id := "c", embedding := [3], created_at := 0 },
                   { memory_id := 1, character_id := "c", embedding := [7], created_at := 0 }],
    nextId := 2 }

/-- Oracle set that drives `search_memories` into the manual rung. -/
def envM1 : MemEnv :=
  { create_embedding := fun _ => .ok [1], sim := fun _ v => v.headD 0,
    atlas := .ok [], findEmbeddings := .ok (), findText := .ok (),
    findMemories := .ok (), now := 0 }

/-- The concrete result of `search_memories envM1 storeM "c" "q" 3`. -/
def lM : List MemoryDoc := [setSimScore 7 memY, setSimScore 3 memX]

theorem similarity_results_sorted_and_truncated_witness :
    (List.Sorted (fun a b : KnowledgeChunk => scoreOf b.metadata ≤ scoreOf a.metadata) lK ∧
      lK.length = min qK.top_k (min 100 (matchingChunks qK storeK).length)) ∧
    (∃ mems, search_memories envM1 storeM ("c") ("q") 3 = .ok mems ∧
      List.Sorted (fun a b : MemoryDoc => scoreOf b.metadata ≤ scoreOf a.metadata) mems ∧
      mems.length ≤ 3 ∧
      (Inv storeM → mems.length =
        min 3 ((storeM.embeddings.filter (fun e => e.character_id == "c")).length))) ∧
    (lM.length ≤ 3) :=
  ⟨similarity_results_sorted_and_truncated.1 envK storeK qK lK (by decide) rfl,
   similarity_results_sorted_and_truncated.2.1 envM1 storeM ("c") ("q") 3 [1] rfl
     (Or.inl rfl) rfl,
   similarity_results_sorted_and_truncated.2.2 envM1 storeM ("c") ("q") 3 lM (by decide)⟩

theorem retrieve_similar_scores_first_100_only_witness :
    (∃ d ∈ (matchingChunks qK storeK).take 100,
      chunkB2 = attachScore envK (envK.get_embedding qK.query) d) ∧
    (∀ d ∈ (matchingChunks qK storeK).drop 100, ∀ c ∈ lK, c.id ≠ d.id) :=
  ⟨retrieve_similar_scores_first_100_only.1 envK storeK qK lK (by decide) rfl
      chunkB2 (by decide),
   retrieve_similar_scores_first_100_only.2 envK storeK qK lK (by decide) rfl (by decide)⟩

/-! ### Claim C3: the memory/embedding linkage invariant -/

theorem updateFirst_length (p : α → Bool) (f : α → α) :
    ∀ l : List α, (updateFirst p f l).length = l.length := by
  intro l
  induction l with
  | nil => rfl
  | cons x xs ih =>
    unfold updateFirst
    by_cases h : p x = true
    · rw [if_pos h]
      rfl
    · rw [if_neg h]
      simp [ih]

theorem updateFirst_countP (p : α → Bool) (f : α → α) (q : α → Bool)
    (hf : ∀ x, q (f x) = q x) :
    ∀ l : List α, (updateFirst p f l).countP q = l.countP q := by
  intro l
  induction l with
  | nil => rfl
  | cons x xs ih =>
    unfold updateFirst
    by_cases h : p x = true
    · rw [if_pos h]
      rw [List.countP_cons, List.countP_cons, hf]
    · rw [if_neg h]
      rw [List.countP_cons, List.countP_cons, ih]

theorem updateFirst_map {γ : Type*} (p : α → Bool) (f : α → α) (g : α → γ)
    (hf : ∀ x, g (f x) = g x) :
    ∀ l : List α, (updateFirst p f l).map g = l.map g := by
  intro l
  induction l with
  | nil => rfl
  | cons x xs ih =>
    unfold updateFirst
    by_cases h : p x = true
    · rw [if_pos h]
      rw [List.map_cons, List.map_cons, hf]
    · rw [if_neg h]
      rw [List.map_cons, List.map_cons, ih]

theorem mem_updateFirst (p : α → Bool) (f : α → α) :
    ∀ (l : List α) (y : α), y ∈ updateFirst p f l → y ∈ l ∨ ∃ x ∈ l, y = f x := by
  intro l
  induction l with
  | nil => intro y hy; cases hy
  | cons x xs ih =>
    intro y hy
    unfold updateFirst at hy
    by_cases h : p x = true
    · rw [if_pos h] at hy
      rcases List.mem_cons.mp hy with hy | hy
      · exact Or.inr ⟨x, List.mem_cons_self x xs, hy⟩
      · exact Or.inl (List.mem_cons_of_mem x hy)
    · rw [if_neg h] at hy
      rcases List.mem_cons.mp hy with hy | hy
      · exact Or.inl (hy ▸ List.mem_cons_self x xs)
      · rcases ih y hy with h2 | ⟨z, hz, hyz⟩
        · exact Or.inl (List.mem_cons_of_mem x h2)
        · exact Or.inr ⟨z, List.mem_cons_of_mem x hz, hyz⟩

theorem removeFirst_sublist (p : α → Bool) :
    ∀ l : List α, List.Sublist (removeFirst p l) l := by
  intro l
  induction l with
  | nil => exact List.Sublist.refl []
  | cons x xs ih =>
    unfold removeFirst
    by_cases h : p x = true
    · rw [if_pos h]
      exact (List.Sublist.refl xs).cons x
    · rw [if_neg h]
      exact ih.cons₂ x

theorem countP_removeFirst_of_false (p q : α → Bool)
    (hq : ∀ x, p x = true → q x = false) :
    ∀ l : List α, (removeFirst p l).countP q = l.countP q := by
  intro l
  induction l with
  | nil => rfl
  | cons x xs ih =>
    unfold removeFirst
    by_cases h : p x = true
    · rw [if_pos h]
      rw [List.countP_cons, hq x h]
      simp
    · rw [if_neg h]
      rw [List.countP_cons, List.countP_cons, ih]

theorem countP_removeFirst_self (p : α → Bool) :
    ∀ l : List α, l.countP p = 1 → (removeFirst p l).countP p = 0 := by
  intro l
  induction l with
  | nil => intro h; cases h
  | cons x xs ih =>
    intro h
    unfold removeFirst
    rw [List.countP_cons] at h
    by_cases hp : p x = true
    · rw [if_pos hp]
      rw [if_pos hp] at h
      have hz : List.countP p xs = 0 := by omega
      exact hz
    · rw [if_neg hp]
      rw [List.countP_cons]
      rw [if_neg hp] at h
      rw [if_neg hp]
      simp only [Nat.add_zero] at h
      rw [ih h]

theorem length_removeFirst_of_any (p : α → Bool) :
    ∀ l : List α, l.any p = true → (removeFirst p l).length + 1 = l.length := by
  intro l
  induction l with
  | nil => intro h; cases h
  | cons x xs ih =>
    intro h
    unfold removeFirst
    by_cases hp : p x = true
    · rw [if_pos hp]
      rfl
    · rw [if_neg hp]
      rw [List.any_cons] at h
      rcases Bool.or_eq_true _ _ |>.mp h with h1 | h1
      · exact absurd h1 hp
      · simp [ih h1]

theorem mem_removeFirst_ne (getId : α → ℕ) (v : ℕ) :
    ∀ l : List α, (l.map getId).Nodup →
      ∀ y ∈ removeFirst (fun x => getId x == v) l, getId y ≠ v := by
  intro l
  induction l with
  | nil => intro _ y hy; cases hy
  | cons x xs ih =>
    intro hnd y hy
    rw [List.map_cons, List.nodup_cons] at hnd
    unfold removeFirst at hy
    by_cases hp : (getId x == v) = true
    · rw [if_pos hp] at hy
      intro hv
      have hx : getId x = v := by simpa using hp
      apply hnd.1
      have hmem : getId y ∈ List.map getId xs := List.mem_map.mpr ⟨y, hy, rfl⟩
      rw [hx, ← hv]
      exact hmem
    · rw [if_neg hp] at hy
      rcases List.mem_cons.mp hy with hy | hy
      · rw [hy]
        simpa using hp
      · exact ih hnd.2 y hy

theorem mem_removeFirst_of_ne (getId : α → ℕ) (v : ℕ) :
    ∀ l : List α, ∀ x ∈ l, getId x ≠ v →
      x ∈ removeFirst (fun z => getId z == v) l := by
  intro l
  induction l with
  | nil => intro x hx; cases hx
  | cons y ys ih =>
    intro x hx hne
    unfold removeFirst
    by_cases hp : (getId y == v) = true
    · rw [if_pos hp]
      rcases List.mem_cons.mp hx with hx | hx
      · have hyv : getId y = v := by simpa using hp
        rw [hx] at hne
        exact absurd hyv hne
      · exact hx
    · rw [if_neg hp]
      rcases List.mem_cons.mp hx with hx | hx
      · exact hx ▸ List.mem_cons_self y _
      · exact List.mem_cons_of_mem y (ih x hx hne)

theorem applyUpdates_id (u : MemUpdates) (m : MemoryDoc) :
    (applyUpdates u m).id = m.id := by
  unfold applyUpdates
  cases u.content <;> cases u.importance <;> cases u.metadata <;> rfl

/-- Invariance of `Inv` under operations that keep the memory-id list,
the per-id embedding counts, the embedding memory-id multiset and the
id generator. -/
theorem Inv_of_same_ids (s t : MemStore)
    (hm : t.memories.map (fun m => m.id) = s.memories.map (fun m => m.id))
    (he : ∀ i : ℕ, t.embeddings.countP (fun e => e.memory_id == i) =
      s.embeddings.countP (fun e => e.memory_id == i))
    (hever : ∀ e ∈ t.embeddings, ∃ x ∈ s.embeddings, e.memory_id = x.memory_id)
    (hnext : t.nextId = s.nextId)
    (hInv : Inv s) : Inv t := by
  obtain ⟨⟨hnd, hmb, heb⟩, hcount, horph⟩ := hInv
  refine ⟨⟨?_, ?_, ?_⟩, ?_, ?_⟩
  · rw [hm]
    exact hnd
  · intro m hmem
    have : m.id ∈ s.memories.map (fun m => m.id) := by
      rw [← hm]
      exact List.mem_map.mpr ⟨m, hmem, rfl⟩
    obtain ⟨x, hx, hxid⟩ := List.mem_map.mp this
    rw [hnext, ← hxid]
    exact hmb x hx
  · intro e hmem
    obtain ⟨x, hx, hxe⟩ := hever e hmem
    rw [hnext, hxe]
    exact heb x hx
  · intro m hmem
    have : m.id ∈ s.memories.map (fun m => m.id) := by
      rw [← hm]
      exact List.mem_map.mpr ⟨m, hmem, rfl⟩
    obtain ⟨x, hx, hxid⟩ := List.mem_map.mp this
    rw [he m.id, ← hxid]
    exact hcount x hx
  · intro e hmem
    obtain ⟨x, hx, hxe⟩ := hever e hmem
    obtain ⟨m, hmmem, hmid⟩ := horph x hx
    have : m.id ∈ t.memories.map (fun m => m.id) := by
      rw [hm]
      exact List.mem_map.mpr ⟨m, hmmem, rfl⟩
    obtain ⟨m2, hm2, hm2id⟩ := List.mem_map.mp this
    exact ⟨m2, hm2, by rw [hm2id, hmid, hxe]⟩

/-- The linkage invariant extends over appending one fresh memory and
one fresh embedding record sharing the generated id. -/
theorem Inv_snoc (store : MemStore) (mem : MemoryDoc) (ed : EmbDoc)
    (hInv : Inv store)
    (hmemid : mem.id = store.nextId) (hedid : ed.memory_id = store.nextId) :
    Inv { memories := store.memories ++ [mem],
          embeddings := store.embeddings ++ [ed],
          nextId := store.nextId + 1 } := by
  obtain ⟨⟨hnd, hmb, heb⟩, hcount, horph⟩ := hInv
  refine ⟨⟨?_, ?_, ?_⟩, ?_, ?_⟩
  · rw [List.map_append, List.nodup_append]
    refine ⟨hnd, List.nodup_singleton _, ?_⟩
    intro a ha hb
    obtain ⟨m, hm, hmid⟩ := List.mem_map.mp ha
    simp only [List.map_cons, List.map_nil, List.mem_singleton] at hb
    rw [hb, hmemid] at hmid
    exact absurd hmid (Nat.ne_of_lt (hmb m hm))
  · intro m hm
    rcases List.mem_append.mp hm with hm | hm
    · exact Nat.lt_succ_of_lt (hmb m hm)
    · rw [List.mem_singleton.mp hm, hmemid]
      exact Nat.lt_succ_self _
  · intro e he2
    rcases List.mem_append.mp he2 with he2 | he2
    · exact Nat.lt_succ_of_lt (heb e he2)
    · rw [List.mem_singleton.mp he2, hedid]
      exact Nat.lt_succ_self _
  · intro m hm
    rw [List.countP_append]
    rcases List.mem_append.mp hm with hm | hm
    · have hne : ed.memory_id ≠ m.id := by
        rw [hedid]
        exact Ne.symm (Nat.ne_of_lt (hmb m hm))
      have h1 : List.countP (fun e => e.memory_id == m.id) [ed] = 0 := by
        simp [List.countP_cons, hne]
      rw [hcount m hm, h1]
    · rw [List.mem_singleton.mp hm]
      have h0 : List.countP (fun e => e.memory_id == mem.id) store.embeddings = 0 := by
        apply List.countP_eq_zero.mpr
        intro e he2
        have : e.memory_id ≠ mem.id := by
          rw [hmemid]
          exact Nat.ne_of_lt (heb e he2)
        simp [this]
      have h1 : List.countP (fun e => e.memory_id == mem.id) [ed] = 1 := by
        have : ed.memory_id = mem.id := by rw [hedid, hmemid]
        simp [List.countP_cons, this]
      rw [h0, h1]
  · intro e he2
    rcases List.mem_append.mp he2 with he2 | he2
    · obtain ⟨m, hm, hmid⟩ := horph e he2
      exact ⟨m, List.mem_append_left _ hm, hmid⟩
    · refine ⟨mem, List.mem_append_right _ (List.mem_singleton_self _), ?_⟩
      rw [List.mem_singleton.mp he2, hedid, hmemid]

/-- Invariant preservation of `create_memory` on successful embedding
generation, with exactly one new embedding record. -/
theorem create_memory_preserves (env : MemEnv) (store : MemStore)
    (cid content source : String) (importance : ℤ) (metadata : Meta) (emb : List ℚ)
    (hInv : Inv store) (hemb : env.create_embedding content = .ok emb) :
    Inv (create_memory env store cid content source importance metadata).1 ∧
    (create_memory env store cid content source importance metadata).1.embeddings.length =
      store.embeddings.length + 1 := by
  unfold create_memory
  rw [hemb]
  constructor
  · exact Inv_snoc store _ _ hInv rfl rfl
  · simp [List.length_append]

/-- Invariant preservation of `update_memory` (all paths), keeping the
number of embedding records unchanged — the regeneration overwrites in
place and never duplicates. -/
theorem update_memory_preserves (env : MemEnv) (store : MemStore) (mid : ℕ)
    (u : MemUpdates) (hInv : Inv store) :
    Inv (update_memory env store mid u).1 ∧
    (update_memory env store mid u).1.embeddings.length = store.embeddings.length := by
  have hm : (updatedMemories store mid u).map (fun m => m.id) =
      store.memories.map (fun m => m.id) := by
    unfold updatedMemories
    exact updateFirst_map _ _ _ (applyUpdates_id u) store.memories
  have base : ∀ t : MemStore, t.memories = updatedMemories store mid u →
      t.embeddings = store.embeddings → t.nextId = store.nextId →
      Inv t ∧ t.embeddings.length = store.embeddings.length := by
    intro t ht1 ht2 ht3
    constructor
    · apply Inv_of_same_ids store t
      · rw [ht1]; exact hm
      · intro i; rw [ht2]
      · intro e he2; rw [ht2] at he2; exact ⟨e, he2, rfl⟩
      · exact ht3
      · exact hInv
    · rw [ht2]
  unfold update_memory
  split
  · exact base _ rfl rfl rfl
  · split
    · exact base _ rfl rfl rfl
    · split
      · exact base _ rfl rfl rfl
      · rename_i emb heq2
        constructor
        · apply Inv_of_same_ids store _
          · exact hm
          · intro i
            exact updateFirst_countP (fun x => x.memory_id == mid)
              (fun x => { x with embedding := emb }) (fun e => e.memory_id == i)
              (fun x => rfl) store.embeddings
          · intro e he3
            rcases mem_updateFirst _ _ _ e he3 with h4 | ⟨x, hx, hex⟩
            · exact ⟨e, h4, rfl⟩
            · exact ⟨x, hx, by rw [hex]⟩
          · rfl
          · exact hInv
        · exact updateFirst_length _ _ _

/-- Invariant preservation of `delete_memory`, with the cascade count
bookkeeping: a successful delete removes exactly one memory and exactly
one embedding record. -/
theorem delete_memory_preserves (store : MemStore) (mid : ℕ) (hInv : Inv store) :
    Inv (delete_memory store mid).1 ∧
    ((delete_memory store mid).2 = true →
      (delete_memory store mid).1.embeddings.length + 1 = store.embeddings.length ∧
      (delete_memory store mid).1.memories.length + 1 = store.memories.length) := by
  obtain ⟨⟨hnd, hmb, heb⟩, hcount, horph⟩ := hInv
  unfold delete_memory
  by_cases hany : store.memories.any (fun m => m.id == mid) = true
  · rw [if_pos hany]
    obtain ⟨m0, hm0, hm0id⟩ := List.any_eq_true.mp hany
    have hm0v : m0.id = mid := by simpa using hm0id
    have hone : store.embeddings.countP (fun e => e.memory_id == mid) = 1 := by
      rw [← hm0v]
      exact hcount m0 hm0
    have hzero : (removeFirst (fun e => e.memory_id == mid)
        store.embeddings).countP (fun e => e.memory_id == mid) = 0 :=
      countP_removeFirst_self _ _ hone
    have hmemne : ∀ m ∈ removeFirst (fun m => m.id == mid) store.memories, m.id ≠ mid :=
      fun m hm => mem_removeFirst_ne (fun m => m.id) mid store.memories hnd m hm
    have hembne : ∀ e ∈ removeFirst (fun e => e.memory_id == mid) store.embeddings,
        e.memory_id ≠ mid := by
      intro e he2
      intro hv
      have : (fun e : EmbDoc => e.memory_id == mid) e = true := by simpa using hv
      have hpos : 0 < (removeFirst (fun e => e.memory_id == mid)
          store.embeddings).countP (fun e => e.memory_id == mid) := by
        apply List.countP_pos_iff.mpr
        exact ⟨e, he2, this⟩
      rw [hzero] at hpos
      exact absurd hpos (by omega)
    constructor
    · refine ⟨⟨?_, ?_, ?_⟩, ?_, ?_⟩
      · exact List.Nodup.sublist ((removeFirst_sublist _ _).map _) hnd
      · intro m hm
        exact hmb m ((removeFirst_sublist _ _).mem hm)
      · intro e he2
        exact heb e ((removeFirst_sublist _ _).mem he2)
      · intro m hm
        have hm2 : m ∈ store.memories := (removeFirst_sublist _ _).mem hm
        have hmne : m.id ≠ mid := hmemne m hm
        rw [countP_removeFirst_of_false _ _ ?_ store.embeddings]
        · exact hcount m hm2
        · intro x hx
          have : x.memory_id = mid := by simpa using hx
          simp [this, Ne.symm hmne]
      · intro e he2
        have he3 : e ∈ store.embeddings := (removeFirst_sublist _ _).mem he2
        obtain ⟨m, hm, hmid⟩ := horph e he3
        have hmne : m.id ≠ mid := by
          rw [hmid]
          exact hembne e he2
        exact ⟨m, mem_removeFirst_of_ne (fun m => m.id) mid store.memories m hm hmne, hmid⟩
    · intro _
      constructor
      · apply length_removeFirst_of_any
        apply List.any_eq_true.mpr
        have hpos : 0 < store.embeddings.countP (fun e => e.memory_id == mid) := by
          rw [hone]
          omega
        obtain ⟨e, he2, hpe⟩ := List.countP_pos_iff.mp hpos
        exact ⟨e, he2, hpe⟩
      · exact length_removeFirst_of_any _ _ hany
  · rw [if_neg hany]
    exact ⟨⟨⟨hnd, hmb, heb⟩, hcount, horph⟩, fun h => absurd h (by simp)⟩

/-- Oracle set whose embedding provider always raises. -/
def envEmbFail : MemEnv :=
  { create_embedding := fun _ => .error "embedding down", sim := fun _ _ => 0,
    atlas := .ok [], findEmbeddings := .ok (), findText := .ok (),
    findMemories := .ok (), now := 0 }

/-- C3 counterexample: when embedding generation fails, `create_memory`
re-raises after the memory document was already inserted, so the new
memory has no embedding record — the "even if embedding generation
fails" part of the claim is false, and the linkage invariant is broken
by that path. -/
theorem create_memory_embedding_failure_breaks_linkage :
    Inv storeE ∧
    ((create_memory envEmbFail storeE ("c") ("hello") ("conversation") 5 []).2 =
      .error "embedding down") ∧
    ((create_memory envEmbFail storeE ("c") ("hello") ("conversation") 5
      []).1.memories.length = 1) ∧
    ((create_memory envEmbFail storeE ("c") ("hello") ("conversation") 5
      []).1.embeddings.length = 0) ∧
    ¬ Inv (create_memory envEmbFail storeE ("c") ("hello") ("conversation") 5 []).1 := by
  refine ⟨?_, ?_, ?_, ?_, ?_⟩ <;> decide

/-- C3 amended: the one-embedding-per-live-memory invariant is
preserved by `create_memory` whenever embedding generation succeeds
(adding exactly one embedding record; on embedding failure the function
raises after inserting the memory document, leaving it without an
embedding record — see the counterexample), by `update_memory` on every
path (the regenerated embedding overwrites the existing record in
place, never creating a duplicate: the embedding count is unchanged),
and by `delete_memory` (a successful delete cascade-removes exactly one
memory and exactly one embedding record, leaving no orphans). -/
theorem memory_embedding_linkage :
    (∀ (env : MemEnv) (store : MemStore) (cid content source : String)
        (importance : ℤ) (metadata : Meta) (emb : List ℚ),
      Inv store → env.create_embedding content = .ok emb →
      Inv (create_memory env store cid content source importance metadata).1 ∧
      (create_memory env store cid content source importance metadata).1.embeddings.length =
        store.embeddings.length + 1) ∧
    (∀ (env : MemEnv) (store : MemStore) (mid : ℕ) (u : MemUpdates),
      Inv store →
      Inv (update_memory env store mid u).1 ∧
      (update_memory env store mid u).1.embeddings.length = store.embeddings.length) ∧
    (∀ (store : MemStore) (mid : ℕ),
      Inv store →
      Inv (delete_memory store mid).1 ∧
      ((delete_memory store mid).2 = true →
        (delete_memory store mid).1.embeddings.length + 1 = store.embeddings.length ∧
        (delete_memory store mid).1.memories.length + 1 = store.memories.length)) :=
  ⟨fun env store cid content source importance metadata emb hInv hemb =>
      create_memory_preserves env store cid content source importance metadata emb hInv hemb,
   fun env store mid u hInv => update_memory_preserves env store mid u hInv,
   fun store mid hInv => delete_memory_preserves store mid hInv⟩

theorem memory_embedding_linkage_witness :
    (Inv (create_memory envM1 storeM ("c") ("fresh") ("conversation") 5 []).1 ∧
      (create_memory envM1 storeM ("c") ("fresh") ("conversation") 5
        []).1.embeddings.length = storeM.embeddings.length + 1) ∧
    (Inv (update_memory envM1 storeM 0
        { content := some "new", importance := none, metadata := none }).1 ∧
      (update_memory envM1 storeM 0
        { content := some "new", importance := none, metadata := none
          }).1.embeddings.length = storeM.embeddings.length) ∧
    (Inv (delete_memory storeM 0).1 ∧
      ((delete_memory storeM 0).2 = true →
        (delete_memory storeM 0).1.embeddings.length + 1 = storeM.embeddings.length ∧
        (delete_memory storeM 0).1.memories.length + 1 = storeM.memories.length)) :=
  ⟨memory_embedding_linkage.1 envM1 storeM ("c") ("fresh") ("conversation") 5 [] [1]
      (by decide) rfl,
   memory_embedding_linkage.2.1 envM1 storeM 0
      { content := some "new", importance := none, metadata := none } (by decide),
   memory_embedding_linkage.2.2 storeM 0 (by decide)⟩

/-! ### Claim C4: exhaustion of the fallback ladder -/

/-- Oracle set in which every database and embedding call raises. -/
def envAllFail : MemEnv :=
  { create_embedding := fun _ => .error "emb down", sim := fun _ _ => 0,
    atlas := .error "atlas down", findEmbeddings := .error "cursor down",
    findText := .error "text down", findMemories := .error "db down", now := 0 }

/-- C4 counterexample: when every rung raises — the embedding call, the
text-search cursor, and finally the unguarded importance query —
`search_memories` does not return an empty list: the final exception
propagates to the caller. -/
theorem search_memories_raises_on_final_rung :
    (envAllFail.create_embedding ("q") = .error "emb down") ∧
    (envAllFail.atlas = .error "atlas down") ∧
    (envAllFail.findText = .error "text down") ∧
    (envAllFail.findMemories = .error "db down") ∧
    (search_memories envAllFail storeE ("c") ("q") 3 = .error "db down") :=
  ⟨rfl, rfl, rfl, rfl, rfl⟩

/-- C4 amended: when the attempted rungs are exhausted and the last
attempted database operation itself succeeds, `search_memories` returns
an empty list: on the vector path (query embeds, Atlas yields no
results or raises, embeddings cursor opens) a character with no
embedding records yields `[]`; on the text path (embedding raises, regex
find succeeds with no matching memories, importance query succeeds) a
character with no memories yields `[]`.  If the final unguarded
importance query itself raises, the exception propagates to the caller
(see the counterexample); the orchestrator's memory-retrieval stage
catches it there. -/
theorem search_exhaustion_yields_empty :
    (∀ (env : MemEnv) (store : MemStore) (cid query : String) (limit : ℕ)
        (qemb : List ℚ),
      env.create_embedding query = .ok qemb →
      (env.atlas = .ok [] ∨ ∃ err, env.atlas = .error err) →
      env.findEmbeddings = .ok () →
      store.embeddings.filter (fun e => e.character_id == cid) = [] →
      search_memories env store cid query limit = .ok []) ∧
    (∀ (env : MemEnv) (store : MemStore) (cid query : String) (limit : ℕ)
        (e : String),
      env.create_embedding query = .error e →
      env.findText = .ok () →
      env.findMemories = .ok () →
      store.memories.filter (fun m => m.character_id == cid) = [] →
      search_memories env store cid query limit = .ok []) := by
  constructor
  · intro env store cid query limit qemb he hatlas hef hfilter
    rw [search_memories_manual env store cid query limit qemb he hatlas hef]
    have : manualResult env store cid limit qemb = [] := by
      unfold manualResult
      rw [hfilter]
      simp [sortByKeyDesc]
    rw [this]
  · intro env store cid query limit e he htext hfin hmem
    have hnochar : ∀ m ∈ store.memories, (m.character_id == cid) = false := by
      intro m hm
      by_cases h : (m.character_id == cid) = true
      · exfalso
        have : m ∈ store.memories.filter (fun m => m.character_id == cid) :=
          List.mem_filter.mpr ⟨hm, h⟩
        rw [hmem] at this
        cases this
      · exact Bool.not_eq_true _ ▸ (Bool.eq_false_iff.mpr h)
    have h1 : store.memories.filter
        (fun m => m.character_id == cid && textMatches query m) = [] := by
      apply List.filter_eq_nil_iff.mpr
      intro m hm
      rw [hnochar m hm]
      simp
    have hgcm : get_character_memories env store cid limit ("importance") none = .ok [] := by
      unfold get_character_memories
      rw [hfin]
      have h2 : store.memories.filter
          (fun m => m.character_id == cid &&
            (match (none : Option String) with | none => true | some s => m.source == s)) =
          [] := by
        apply List.filter_eq_nil_iff.mpr
        intro m hm
        rw [hnochar m hm]
        simp
      rw [h2]
      simp [sortByKeyDesc]
    unfold search_memories
    rw [he]
    unfold textFallback
    rw [htext]
    have h3 : textResults store cid query limit = [] := by
      unfold textResults
      rw [h1]
      exact List.take_nil
    rw [h3]
    simpa using hgcm

/-- Oracle set reaching the text path whose own queries succeed. -/
def envTextEmpty : MemEnv :=
  { create_embedding := fun _ => .error "emb down", sim := fun _ _ => 0,
    atlas := .ok [], findEmbeddings := .ok (), findText := .ok (),
    findMemories := .ok (), now := 0 }

theorem search_exhaustion_yields_empty_witness :
    (search_memories envM1 storeE ("c") ("q") 3 = .ok []) ∧
    (search_memories envTextEmpty storeE ("c") ("q") 3 = .ok []) :=
  ⟨search_exhaustion_yields_empty.1 envM1 storeE ("c") ("q") 3 [1] rfl (Or.inl rfl) rfl rfl,
   search_exhaustion_yields_empty.2 envTextEmpty storeE ("c") ("q") 3 ("emb down")
     rfl rfl rfl rfl⟩

end HeroAgent
